import Mathlib

/-!
Verification of the rk parametric CAD / robot-assembly editor.

This file gives a shallow embedding of the core data structures and
operations of the rk repository (crates rk-cad, rk-core, rk-frontend) and
proves or refutes the frozen specification claims about them.

Conventions of the embedding:
* Rust `Uuid` is modelled as `Nat`.
* Rust `HashMap<K, V>` is modelled as an association list `List (K × V)`
  with `List.lookup`; well-formed states have pairwise distinct keys.
* Rust `f32` scalars are modelled as `ℚ` where the code computes with them
  directly, and abstractly where only external library code (glam, truck)
  touches them.
* External library operations (glam matrix/quaternion constructors,
  truck_shapeops booleans, the pluggable CAD kernel) are parameters of the
  embedded functions: the embedding proves properties of the repository
  code for every behaviour of the external library.
* Fallible Rust functions returning `Result` are modelled with `Except`;
  functions mutating `&mut self` return the new state explicitly.
-/

namespace RK

/-- Uuid is modelled as a natural number. -/
abbrev Uuid := Nat

/-- HashMap::insert on an association list: replaces the value under an
existing key, otherwise appends. -/
def hmInsert {α β : Type} [DecidableEq α] (l : List (α × β)) (k : α) (v : β) :
    List (α × β) :=
  if l.any (fun kv => kv.1 = k) then
    l.map (fun kv => if kv.1 = k then (k, v) else kv)
  else
    l ++ [(k, v)]

/-! ## Sketch entities (rk-cad/src/sketch/entity.rs) -/

/-- Two dimensional vector over rationals, modelling glam::Vec2. -/
abbrev Vec2 := ℚ × ℚ

/-- Three dimensional vector over rationals, modelling glam::Vec3. -/
abbrev Vec3Q := ℚ × ℚ × ℚ

/-- A geometric entity in a sketch, from sketch/entity.rs. -/
inductive SketchEntity where
  | point (id : Uuid) (position : Vec2)
  | line (id : Uuid) (start finish : Uuid)
  | arc (id : Uuid) (center start finish : Uuid) (radius : ℚ)
  | circle (id : Uuid) (center : Uuid) (radius : ℚ)
  | ellipse (id : Uuid) (center : Uuid) (major_radius minor_radius rot : ℚ)
  | spline (id : Uuid) (control_points : List Uuid) (closed : Bool)
  deriving DecidableEq, Repr

namespace SketchEntity

/-- SketchEntity::id. -/
def id : SketchEntity → Uuid
  | .point i _ => i
  | .line i _ _ => i
  | .arc i _ _ _ _ => i
  | .circle i _ _ => i
  | .ellipse i _ _ _ _ => i
  | .spline i _ _ => i

/-- SketchEntity::is_point. -/
def is_point : SketchEntity → Bool
  | .point _ _ => true
  | _ => false

/-- SketchEntity::referenced_points. -/
def referenced_points : SketchEntity → List Uuid
  | .point _ _ => []
  | .line _ s e => [s, e]
  | .arc _ c s e _ => [c, s, e]
  | .circle _ c _ => [c]
  | .ellipse _ c _ _ _ => [c]
  | .spline _ cps _ => cps

end SketchEntity

/-! ## Sketch constraints

Modelled from the spec: sketch/constraint.rs is not under src/ (only its
users in sketch/mod.rs are), so `SketchConstraint` is modelled from the
spec data model: a constraint is a tagged variant carrying the UIDs of the
entities it references.  The tag and any dimensional value play no role in
the claims, so a constraint is kept as its id together with the list of
referenced entity UIDs; `referenced_entities` returns that list and
`references_entity` tests membership in it. -/
structure SketchConstraint where
  id : Uuid
  refs : List Uuid
  deriving DecidableEq, Repr

namespace SketchConstraint

/-- SketchConstraint::referenced_entities, modelled from the spec. -/
def referenced_entities (c : SketchConstraint) : List Uuid := c.refs

/-- SketchConstraint::references_entity, modelled from the spec:
membership of the given entity id among the referenced entity UIDs. -/
def references_entity (c : SketchConstraint) (e : Uuid) : Bool :=
  c.refs.contains e

end SketchConstraint

/-! ## Sketch errors (rk-cad/src/sketch/mod.rs) -/

/-- SketchError (the String payloads carry only diagnostics). -/
inductive SketchError where
  | entityNotFound (id : Uuid)
  | constraintNotFound (id : Uuid)
  | invalidConstraint (msg : String)
  | solverFailed (msg : String)
  | profileExtractionFailed (msg : String)
  deriving DecidableEq, Repr

/-! ## Sketch plane and sketch aggregate (rk-cad/src/sketch/mod.rs) -/

/-- SketchPlane. -/
structure SketchPlane where
  origin : Vec3Q
  normal : Vec3Q
  x_axis : Vec3Q
  y_axis : Vec3Q
  deriving DecidableEq, Repr

/-- SketchPlane::xy. -/
def SketchPlane.xy : SketchPlane :=
  { origin := (0, 0, 0), normal := (0, 0, 1), x_axis := (1, 0, 0), y_axis := (0, 1, 0) }

/-- A 2D sketch containing entities and constraints. -/
structure Sketch where
  id : Uuid
  name : String
  plane : SketchPlane
  entities : List (Uuid × SketchEntity)
  constraints : List (Uuid × SketchConstraint)
  construction : List Uuid
  is_solved : Bool
  dof : Nat
  deriving DecidableEq, Repr

namespace Sketch

/-- Sketch::with_id (Sketch::new differs only in minting a random id). -/
def with_id (i : Uuid) (name : String) (plane : SketchPlane) : Sketch :=
  { id := i, name := name, plane := plane, entities := [], constraints := [],
    construction := [], is_solved := true, dof := 0 }

/-- Sketch::add_entity. -/
def add_entity (s : Sketch) (entity : SketchEntity) : Uuid × Sketch :=
  (entity.id,
   { s with entities := hmInsert s.entities entity.id entity, is_solved := false })

/-- Sketch::get_entity. -/
def get_entity (s : Sketch) (i : Uuid) : Option SketchEntity :=
  s.entities.lookup i

/-- Sketch::get_entity_mut, modelled as applying an arbitrary in-place
update to the entity stored under the given key (the Rust method hands out
a mutable reference, so the caller may rewrite the entity arbitrarily);
it also clears the solved flag. -/
def modify_entity (s : Sketch) (i : Uuid) (f : SketchEntity → SketchEntity) : Sketch :=
  { s with
    entities := s.entities.map (fun kv => if kv.1 = i then (kv.1, f kv.2) else kv),
    is_solved := false }

/-- Sketch::remove_entity: collects the constraints referencing the
entity, removes them, removes the construction mark, clears the solved
flag, and removes (returning) the entity itself. -/
def remove_entity (s : Sketch) (i : Uuid) : Option SketchEntity × Sketch :=
  let related : List Uuid :=
    (s.constraints.filter (fun kv => kv.2.references_entity i)).map (fun kv => kv.1)
  let constraints := related.foldl
    (fun (m : List (Uuid × SketchConstraint)) cid => m.filter (fun kv => kv.1 ≠ cid))
    s.constraints
  (s.entities.lookup i,
   { s with
     entities := s.entities.filter (fun kv => kv.1 ≠ i),
     constraints := constraints,
     construction := s.construction.filter (fun e => e ≠ i),
     is_solved := false })

/-- Sketch::add_constraint: validates that every referenced entity exists
(first missing id is reported as EntityNotFound and nothing is inserted),
then inserts the constraint and clears the solved flag. -/
def add_constraint (s : Sketch) (c : SketchConstraint) : Except SketchError Uuid × Sketch :=
  match c.referenced_entities.find? (fun e => (s.entities.lookup e).isNone) with
  | some e => (.error (.entityNotFound e), s)
  | none =>
      (.ok c.id,
       { s with constraints := hmInsert s.constraints c.id c, is_solved := false })

/-- Sketch::remove_constraint. -/
def remove_constraint (s : Sketch) (i : Uuid) : Option SketchConstraint × Sketch :=
  (s.constraints.lookup i,
   { s with constraints := s.constraints.filter (fun kv => kv.1 ≠ i), is_solved := false })

/-- Sketch::set_construction. -/
def set_construction (s : Sketch) (i : Uuid) (b : Bool) : Sketch :=
  if b then
    { s with construction := s.construction ++ [i] }
  else
    { s with construction := s.construction.filter (fun e => e ≠ i) }

/-- Sketch::is_construction. -/
def is_construction (s : Sketch) (i : Uuid) : Bool :=
  s.construction.contains i

end Sketch

/-! ## Sketches built through the public operations

The inductive closure of the public Sketch operations of sketch/mod.rs.
The helper constructors add_point / add_line / add_circle / add_arc /
add_rectangle all reduce to add_entity, and solve (solver.rs, absent from
src/; per the spec it only moves point coordinates) is subsumed by the
entity update of `modify_entity`. -/
inductive Sketch.Reachable : Sketch → Prop where
  | new (i : Uuid) (name : String) (plane : SketchPlane) :
      Sketch.Reachable (Sketch.with_id i name plane)
  | add_entity (s : Sketch) (e : SketchEntity) :
      Sketch.Reachable s → Sketch.Reachable (s.add_entity e).2
  | modify_entity (s : Sketch) (i : Uuid) (f : SketchEntity → SketchEntity) :
      Sketch.Reachable s → Sketch.Reachable (s.modify_entity i f)
  | remove_entity (s : Sketch) (i : Uuid) :
      Sketch.Reachable s → Sketch.Reachable (s.remove_entity i).2
  | add_constraint (s : Sketch) (c : SketchConstraint) :
      Sketch.Reachable s → Sketch.Reachable (s.add_constraint c).2
  | remove_constraint (s : Sketch) (i : Uuid) :
      Sketch.Reachable s → Sketch.Reachable (s.remove_constraint i).2
  | set_construction (s : Sketch) (i : Uuid) (b : Bool) :
      Sketch.Reachable s → Sketch.Reachable (s.set_construction i b)

/-- The referential-integrity invariant of a sketch: every constraint in
the constraints map references only entity UIDs present in the entities
map. -/
def Sketch.ConstraintsValid (s : Sketch) : Prop :=
  ∀ kv ∈ s.constraints, ∀ e ∈ kv.2.referenced_entities, (s.entities.lookup e).isSome

/-! ## Profile extraction (rk-cad/src/sketch/mod.rs) -/

/-- A 2D wire for extrusion profiles (kernel/traits.rs).  The Rust struct
additionally carries a randomly minted Uuid, which the embedding omits. -/
structure Wire2D where
  points : List Vec2
  closed : Bool
  deriving DecidableEq, Repr

/-- SketchEntity::Line test used to collect profile seed lines. -/
def SketchEntity.is_line : SketchEntity → Bool
  | .line _ _ _ => true
  | _ => false

namespace Sketch

/-- Sketch::get_point_position. -/
def get_point_position (s : Sketch) (i : Uuid) : Except SketchError Vec2 :=
  match s.entities.lookup i with
  | none => .error (.entityNotFound i)
  | some (.point _ position) => .ok position
  | some _ => .error (.invalidConstraint (r"Entity is not a point"))

/-- Sketch::entities_to_points: the start point position of each line in
the traced loop, in traversal order; non-line entities are skipped. -/
def entities_to_points (s : Sketch) : List Uuid → Except SketchError (List Vec2)
  | [] => .ok []
  | i :: rest =>
    match s.entities.lookup i with
    | none => .error (.entityNotFound i)
    | some (.line _ start _) => do
        let pos ← s.get_point_position start
        let ps ← s.entities_to_points rest
        .ok (pos :: ps)
    | some _ => s.entities_to_points rest

/-- The body of the bounded loop of Sketch::trace_closed_loop: at most
`fuel` iterations (the source caps at 100); each iteration first tests
whether the loop closed, then searches the entity values for a connected
line that is neither already used nor already in the loop.  Note that the
search does not consult the construction set. -/
def trace_step (s : Sketch) (used : List Uuid) :
    Nat → List Uuid → Uuid → Uuid → Option (List Uuid)
  | 0, _, _, _ => none
  | fuel + 1, loop_entities, current_end, target =>
    if current_end = target then some loop_entities
    else
      match (s.entities.map (fun kv => kv.2)).find? (fun e =>
          !(used.contains e.id) && !(loop_entities.contains e.id) &&
          (match e with
           | .line _ a b => a == current_end || b == current_end
           | _ => false)) with
      | some (SketchEntity.line i a b) =>
          s.trace_step used fuel (loop_entities ++ [i])
            (if a = current_end then b else a) target
      | _ => none

/-- Sketch::trace_closed_loop. -/
def trace_closed_loop (s : Sketch) (start_id : Uuid) (used : List Uuid) :
    Option (List Uuid) :=
  match s.entities.lookup start_id with
  | some (.line _ start_point first_end) =>
      s.trace_step used 100 [start_id] first_end start_point
  | _ => none

/-- The seed-line loop of Sketch::extract_profiles: for each collected
seed line not yet used, trace a closed loop, mark its entities used,
convert them to points, and keep wires with at least 3 points. -/
def extract_lines_loop (s : Sketch) :
    List SketchEntity → List Uuid → List Wire2D →
    Except SketchError (List Uuid × List Wire2D)
  | [], used, profiles => .ok (used, profiles)
  | e :: rest, used, profiles =>
    if used.contains e.id then s.extract_lines_loop rest used profiles
    else
      match s.trace_closed_loop e.id used with
      | none => s.extract_lines_loop rest used profiles
      | some profile => do
          let used := used ++ profile
          let points ← s.entities_to_points profile
          if points.length ≥ 3 then
            s.extract_lines_loop rest used (profiles ++ [⟨points, true⟩])
          else
            s.extract_lines_loop rest used profiles

/-- The circle loop of Sketch::extract_profiles: each non-construction
Circle becomes its own wire via Wire2D::circle (sampled at 32 segments);
`circleFn` stands for Wire2D::circle, whose trigonometric sampling is
external library arithmetic. -/
def extract_circles_loop (s : Sketch) (circleFn : Vec2 → ℚ → Nat → Wire2D) :
    List SketchEntity → List Wire2D → Except SketchError (List Wire2D)
  | [], profiles => .ok profiles
  | e :: rest, profiles =>
    if s.is_construction e.id then s.extract_circles_loop circleFn rest profiles
    else
      match e with
      | .circle _ center radius => do
          let center_pos ← s.get_point_position center
          s.extract_circles_loop circleFn rest (profiles ++ [circleFn center_pos radius 32])
      | _ => s.extract_circles_loop circleFn rest profiles

/-- Sketch::extract_profiles. -/
def extract_profiles (s : Sketch) (circleFn : Vec2 → ℚ → Nat → Wire2D) :
    Except SketchError (List Wire2D) := do
  let lines := (s.entities.map (fun kv => kv.2)).filter
      (fun e => e.is_line && !(s.is_construction e.id))
  let (_, profiles) ← s.extract_lines_loop lines [] []
  let profiles ← s.extract_circles_loop circleFn (s.entities.map (fun kv => kv.2)) profiles
  if profiles.isEmpty then
    .error (.profileExtractionFailed (r"No closed profiles found"))
  else
    .ok profiles

end Sketch

/-! ## CAD kernel interface (rk-cad/src/kernel/traits.rs) -/

/-- CadError. -/
inductive CadError where
  | invalidProfile (msg : String)
  | booleanFailed (msg : String)
  | tessellationFailed (msg : String)
  | kernelNotAvailable (msg : String)
  | operationFailed (msg : String)
  deriving DecidableEq, Repr

/-- A 3D solid handle. -/
structure Solid where
  id : Uuid
  has_kernel_data : Bool
  deriving DecidableEq, Repr

/-- Axis3D (the direction is normalized by Axis3D::new, an external glam
operation; see the `vnorm` parameter of `Feature.execute`). -/
structure Axis3D where
  origin : Vec3Q
  direction : Vec3Q
  deriving DecidableEq, Repr

/-- BooleanType. -/
inductive BooleanType where
  | union
  | subtract
  | intersect
  deriving DecidableEq, Repr

/-! ## Truck kernel (rk-cad/src/kernel/truck.rs) -/

/-- TruckKernel::boolean on an explicit solid store.  `T` is the type of
truck B-rep solids and `solid_or` / `solid_and` stand for the external
truck_shapeops union and intersection (returning none on failure);
`freshId` stands for the Uuid minted by store_solid on success.  The
function returns the result together with the new store. -/
def TruckKernel.boolean {T : Type} (solid_or solid_and : T → T → Option T)
    (freshId : Uuid) (store : List (Uuid × T)) (a b : Solid) (op : BooleanType) :
    Except CadError Solid × List (Uuid × T) :=
  match store.lookup a.id with
  | none => (.error (.operationFailed (r"First solid not found")), store)
  | some solid_a =>
    match store.lookup b.id with
    | none => (.error (.operationFailed (r"Second solid not found")), store)
    | some solid_b =>
      match op with
      | .union =>
        match solid_or solid_a solid_b with
        | none => (.error (.operationFailed (r"Union operation failed")), store)
        | some result => (.ok ⟨freshId, true⟩, store ++ [(freshId, result)])
      | .intersect =>
        match solid_and solid_a solid_b with
        | none => (.error (.operationFailed (r"Intersection operation failed")), store)
        | some result => (.ok ⟨freshId, true⟩, store ++ [(freshId, result)])
      | .subtract =>
        (.error (.operationFailed (r"Subtract is not supported by Truck kernel")), store)

/-! ## Features (rk-cad/src/feature/mod.rs) -/

/-- ExtrudeDirection. -/
inductive ExtrudeDirection where
  | positive
  | negative
  | symmetric
  deriving DecidableEq, Repr

/-- BooleanOp. -/
inductive BooleanOp where
  | new
  | join
  | cut
  | intersect
  deriving DecidableEq, Repr

/-- The From impl mapping BooleanOp to Option BooleanType. -/
def BooleanOp.toBooleanType : BooleanOp → Option BooleanType
  | .new => none
  | .join => some .union
  | .cut => some .subtract
  | .intersect => some .intersect

/-- FeatureError. -/
inductive FeatureError where
  | sketchError (e : SketchError)
  | cadError (e : CadError)
  | invalidFeature (msg : String)
  | featureNotFound (id : Uuid)
  | rebuildFailed (msg : String)
  deriving DecidableEq, Repr

/-- Feature, a tagged variant. -/
inductive Feature where
  | extrude (id : Uuid) (name : String) (sketch_id : Uuid) (distance : ℚ)
      (direction : ExtrudeDirection) (boolean_op : BooleanOp)
      (target_body : Option Uuid) (draft_angle : ℚ) (suppressed : Bool)
  | revolve (id : Uuid) (name : String) (sketch_id : Uuid)
      (axis_origin axis_direction : Vec3Q) (angle : ℚ) (boolean_op : BooleanOp)
      (target_body : Option Uuid) (suppressed : Bool)
  | boolean (id : Uuid) (name : String) (target_body tool_body : Uuid)
      (operation : BooleanOp) (suppressed : Bool)
  | fillet (id : Uuid) (name : String) (body_id : Uuid) (radius : ℚ)
      (edges : List Uuid) (suppressed : Bool)
  | chamfer (id : Uuid) (name : String) (body_id : Uuid) (distance : ℚ)
      (edges : List Uuid) (suppressed : Bool)
  deriving DecidableEq, Repr

/-- Feature::is_suppressed. -/
def Feature.is_suppressed : Feature → Bool
  | .extrude _ _ _ _ _ _ _ _ s => s
  | .revolve _ _ _ _ _ _ _ _ s => s
  | .boolean _ _ _ _ _ s => s
  | .fillet _ _ _ _ _ s => s
  | .chamfer _ _ _ _ _ s => s

/-- The CadKernel capability set used by Feature::execute, as pure
functions: the kernel back-end is external to the claims, so its
operations are parameters of the embedding. -/
structure KernelOps where
  extrude : Wire2D → Vec3Q → Vec3Q → Vec3Q → ℚ → Except CadError Solid
  revolve : Wire2D → Vec3Q → Vec3Q → Axis3D → ℚ → Except CadError Solid
  boolean : Solid → Solid → BooleanType → Except CadError Solid

/-- Componentwise vector negation, modelling glam unary minus on Vec3. -/
def vneg (v : Vec3Q) : Vec3Q := (-v.1, -v.2.1, -v.2.2)

/-- Feature::execute.  `vnorm` stands for the external glam normalization
used by Axis3D::new in the Revolve arm; `circleFn` stands for
Wire2D::circle (see `Sketch.extract_profiles`). -/
def Feature.execute (ker : KernelOps) (vnorm : Vec3Q → Vec3Q)
    (circleFn : Vec2 → ℚ → Nat → Wire2D) (f : Feature)
    (sketches : List (Uuid × Sketch)) (existing_bodies : List (Uuid × Solid)) :
    Except FeatureError Solid :=
  if f.is_suppressed then .error (.invalidFeature (r"Feature is suppressed"))
  else
    match f with
    | .extrude _ _ sketch_id distance direction boolean_op target_body _ _ =>
      match sketches.lookup sketch_id with
      | none => .error (.invalidFeature (r"Sketch not found"))
      | some sketch => do
        let profiles ← (sketch.extract_profiles circleFn).mapError FeatureError.sketchError
        match profiles with
        | [] => .error (.invalidFeature (r"No closed profiles found"))
        | profile :: _ =>
          let dd : Vec3Q × ℚ :=
            match direction with
            | .positive => (sketch.plane.normal, distance)
            | .negative => (vneg sketch.plane.normal, distance)
            | .symmetric => (sketch.plane.normal, distance / 2)
          let extrude_dir := dd.1
          let extrude_dist := dd.2
          do
          let solid ← (ker.extrude profile sketch.plane.origin sketch.plane.normal
              extrude_dir extrude_dist).mapError FeatureError.cadError
          let solid ←
            match direction with
            | .symmetric => do
                let solid2 ← (ker.extrude profile sketch.plane.origin sketch.plane.normal
                    (vneg extrude_dir) extrude_dist).mapError FeatureError.cadError
                (ker.boolean solid solid2 .union).mapError FeatureError.cadError
            | _ => .ok solid
          match boolean_op.toBooleanType, target_body with
          | some op, some target_id =>
            (match existing_bodies.lookup target_id with
             | some target => (ker.boolean target solid op).mapError FeatureError.cadError
             | none => .ok solid)
          | _, _ => .ok solid
    | .revolve _ _ sketch_id axis_origin axis_direction angle boolean_op target_body _ =>
      match sketches.lookup sketch_id with
      | none => .error (.invalidFeature (r"Sketch not found"))
      | some sketch => do
        let profiles ← (sketch.extract_profiles circleFn).mapError FeatureError.sketchError
        match profiles with
        | [] => .error (.invalidFeature (r"No closed profiles found"))
        | profile :: _ => do
          let axis : Axis3D := ⟨axis_origin, vnorm axis_direction⟩
          let solid ← (ker.revolve profile sketch.plane.origin sketch.plane.normal
              axis angle).mapError FeatureError.cadError
          match boolean_op.toBooleanType, target_body with
          | some op, some target_id =>
            (match existing_bodies.lookup target_id with
             | some target => (ker.boolean target solid op).mapError FeatureError.cadError
             | none => .ok solid)
          | _, _ => .ok solid
    | .boolean _ _ target_body tool_body operation _ =>
      match existing_bodies.lookup target_body with
      | none => .error (.invalidFeature (r"Target body not found"))
      | some target =>
        match existing_bodies.lookup tool_body with
        | none => .error (.invalidFeature (r"Tool body not found"))
        | some tool =>
          match operation.toBooleanType with
          | none => .error (.invalidFeature (r"Invalid boolean operation"))
          | some op => (ker.boolean target tool op).mapError FeatureError.cadError
    | .fillet _ _ _ _ _ _ => .error (.invalidFeature (r"Fillet or Chamfer not yet implemented"))
    | .chamfer _ _ _ _ _ _ => .error (.invalidFeature (r"Fillet or Chamfer not yet implemented"))

/-! ## Undo history (rk-frontend/src/state/history.rs) -/

/-- UndoSnapshot, generic in the project and CAD state types. -/
structure UndoSnapshot (σ τ : Type) where
  project : σ
  cad : τ
  description : String
  deriving DecidableEq, Repr

/-- UndoHistory. -/
structure UndoHistory (σ τ : Type) where
  undo_stack : List (UndoSnapshot σ τ)
  redo_stack : List (UndoSnapshot σ τ)
  max_history : Nat
  deriving DecidableEq, Repr

namespace UndoHistory

variable {σ τ : Type}

/-- UndoHistory::new. -/
def new (max : Nat) : UndoHistory σ τ := ⟨[], [], max⟩

/-- UndoHistory::save_state: clears the redo stack, pushes the snapshot,
and discards the oldest element when the stack exceeds max_history. -/
def save_state (h : UndoHistory σ τ) (project : σ) (cad : τ) (description : String) :
    UndoHistory σ τ :=
  { h with
    undo_stack :=
      if (h.undo_stack ++ [(⟨project, cad, description⟩ : UndoSnapshot σ τ)]).length
          > h.max_history then
        (h.undo_stack ++ [(⟨project, cad, description⟩ : UndoSnapshot σ τ)]).drop 1
      else
        h.undo_stack ++ [(⟨project, cad, description⟩ : UndoSnapshot σ τ)],
    redo_stack := [] }

/-- UndoHistory::undo: pops the last snapshot, pushes the current state
onto the redo stack, and returns the popped snapshot. -/
def undo (h : UndoHistory σ τ) (current_project : σ) (current_cad : τ) :
    Option (UndoSnapshot σ τ) × UndoHistory σ τ :=
  match h.undo_stack.getLast? with
  | some previous =>
    (some previous,
     { h with
       undo_stack := h.undo_stack.dropLast,
       redo_stack := h.redo_stack ++ [⟨current_project, current_cad, previous.description⟩] })
  | none => (none, h)

/-- UndoHistory::redo: pops the last redo snapshot, pushes the current
state onto the undo stack, and returns the popped snapshot. -/
def redo (h : UndoHistory σ τ) (current_project : σ) (current_cad : τ) :
    Option (UndoSnapshot σ τ) × UndoHistory σ τ :=
  match h.redo_stack.getLast? with
  | some next =>
    (some next,
     { h with
       redo_stack := h.redo_stack.dropLast,
       undo_stack := h.undo_stack ++ [⟨current_project, current_cad, next.description⟩] })
  | none => (none, h)

end UndoHistory

/-! ## Editor dispatcher scenario state

Modelled from the spec: the action dispatcher (rk-frontend actions/mod.rs)
is not under src/; per the spec, before dispatching an undoable action the
dispatcher snapshots the current state via save_state, and Undo / Redo
restore the snapshot returned by UndoHistory::undo / ::redo (as
handle_undo / handle_redo in actions/history.rs do).  The project is
abstracted to its list of part UIDs and the CAD state to Unit. -/
structure EditorState where
  parts : List Uuid
  history : UndoHistory (List Uuid) Unit
  deriving DecidableEq, Repr

namespace EditorState

/-- Modelled from the spec: the empty project with a fresh history
(default capacity 50). -/
def empty : EditorState := ⟨[], UndoHistory.new 50⟩

/-- Modelled from the spec: dispatching an undoable AddPart action first
saves the current state, then inserts the part. -/
def addPart (st : EditorState) (p : Uuid) : EditorState :=
  { parts := st.parts ++ [p],
    history := st.history.save_state st.parts () (r"Add Part") }

/-- The Undo action: handle_undo restores the snapshot if one exists. -/
def applyUndo (st : EditorState) : EditorState :=
  match st.history.undo st.parts () with
  | (some snap, h) => { parts := snap.project, history := h }
  | (none, h) => { st with history := h }

/-- The Redo action: handle_redo restores the snapshot if one exists. -/
def applyRedo (st : EditorState) : EditorState :=
  match st.history.redo st.parts () with
  | (some snap, h) => { parts := snap.project, history := h }
  | (none, h) => { st with history := h }

end EditorState

/-! ## Assembly data model (rk-core)

The Assembly struct declaration (assembly/mod.rs) is not under src/; its
fields are modelled from the spec data model together with the uses in
assembly/graph.rs and assembly/transforms.rs.  The world-transform carrier
`M`, the vector type `V`, the quaternion type `Q` and the scalar type `S`
are abstract; the glam operations used by the repository code are the
parameters collected in `GlamOps`. -/

/-- JointType (rk-core/src/types/joint.rs). -/
inductive JointType where
  | fixed
  | revolute
  | continuous
  | prismatic
  | floating
  | planar
  deriving DecidableEq, Repr

/-- Pose (rk-core/src/types/pose.rs): xyz translation and rpy XYZ-Euler
angles over the scalar type. -/
structure Pose (S : Type) where
  xyz : S × S × S
  rpy : S × S × S
  deriving DecidableEq, Repr

/-- JointMimic (rk-core/src/types/joint.rs). -/
structure JointMimic (S : Type) where
  joint_id : Uuid
  multiplier : S
  offset : S
  deriving DecidableEq, Repr

/-- JointLimits (rk-core/src/types/joint.rs). -/
structure JointLimits (S : Type) where
  lower : S
  upper : S
  effort : S
  velocity : S
  deriving DecidableEq, Repr

/-- JointDynamics (rk-core/src/types/joint.rs). -/
structure JointDynamics (S : Type) where
  damping : S
  friction : S
  deriving DecidableEq, Repr

/-- Joint (rk-core/src/assembly/joint.rs). -/
structure Joint (S V : Type) where
  id : Uuid
  name : String
  joint_type : JointType
  parent_link : Uuid
  child_link : Uuid
  origin : Pose S
  axis : V
  limits : Option (JointLimits S)
  dynamics : Option (JointDynamics S)
  mimic : Option (JointMimic S)
  deriving DecidableEq, Repr

/-- Link: of the Rust Link struct only the fields relevant to the claims
are kept (id, name and the cached world transform). -/
structure Link (M : Type) where
  id : Uuid
  name : String
  world_transform : M
  deriving DecidableEq, Repr

/-- The glam / scalar operations used by the embedded rk-core code.  They
are external library code, so the embedding is parametric in them. -/
structure GlamOps (S V Q M : Type) where
  zero : S
  smul : S → S → S
  sadd : S → S → S
  idMat : M
  mul : M → M → M
  quat_from_axis_angle : V → S → Q
  mat_from_quat : Q → M
  scale_vec : V → S → V
  mat_from_translation : V → M
  pose_to_mat4 : Pose S → M

/-- JointMimic::calculate: multiplier * source_position + offset. -/
def JointMimic.calculate {S V Q M : Type} (ops : GlamOps S V Q M)
    (m : JointMimic S) (source_position : S) : S :=
  ops.sadd (ops.smul m.multiplier source_position) m.offset

/-- AssemblyError, from the variants used in assembly/graph.rs. -/
inductive AssemblyError where
  | linkNotFound (id : Uuid)
  | wouldCreateCycle
  | alreadyHasParent (id : Uuid)
  | noParent (id : Uuid)
  | jointNotFound (id : Uuid)
  deriving DecidableEq, Repr

/-- Assembly.  Modelled from the spec data model and the field uses in
graph.rs / transforms.rs; `transforms_dirty` models the cache flag set by
invalidate_cache (spec: mutations invalidate the world-transform cache). -/
structure Assembly (S V M : Type) where
  links : List (Uuid × Link M)
  joints : List (Uuid × Joint S V)
  children : List (Uuid × List (Uuid × Uuid))
  parent : List (Uuid × (Uuid × Uuid))
  link_name_index : List (String × Uuid)
  joint_name_index : List (String × Uuid)
  joint_positions : List (Uuid × S)
  transforms_dirty : Bool
  deriving DecidableEq, Repr

namespace Assembly

variable {S V Q M : Type}

/-- Assembly::invalidate_cache, modelled from the spec: marks the cached
world transforms dirty. -/
def invalidate_cache (st : Assembly S V M) : Assembly S V M :=
  { st with transforms_dirty := true }

/-- The ancestor walk of Assembly::would_create_cycle, bounded by fuel
(the Rust loop is unbounded; on inputs whose parent chain terminates or
contains the child within `fuel` steps the two agree). -/
def cycle_walk (st : Assembly S V M) : Nat → Option Uuid → Uuid → Bool
  | 0, _, _ => false
  | _ + 1, none, _ => false
  | fuel + 1, some i, child_id =>
    if i = child_id then true
    else st.cycle_walk fuel ((st.parent.lookup i).map (fun jp => jp.2)) child_id

/-- Assembly::would_create_cycle: walks the ancestor chain starting at
parent_id and reports true when it encounters child_id. -/
def would_create_cycle (st : Assembly S V M) (parent_id child_id : Uuid) : Bool :=
  st.cycle_walk (st.parent.length + 1) (some parent_id) child_id

/-- Assembly::connect. -/
def connect (st : Assembly S V M) (parent_id child_id : Uuid) (joint : Joint S V) :
    Except AssemblyError Uuid × Assembly S V M :=
  if (st.links.lookup parent_id).isNone then
    (.error (.linkNotFound parent_id), st)
  else if (st.links.lookup child_id).isNone then
    (.error (.linkNotFound child_id), st)
  else if st.would_create_cycle parent_id child_id then
    (.error .wouldCreateCycle, st)
  else if (st.parent.lookup child_id).isSome then
    (.error (.alreadyHasParent child_id), st)
  else
    let joint_id := joint.id
    let st1 := { st with
      joint_name_index := hmInsert st.joint_name_index joint.name joint_id,
      joints := hmInsert st.joints joint_id joint }
    let st2 := { st1 with
      children := hmInsert st1.children parent_id
        (((st1.children.lookup parent_id).getD []) ++ [(joint_id, child_id)]),
      parent := hmInsert st1.parent child_id (joint_id, parent_id) }
    (.ok joint_id, st2.invalidate_cache)

end Assembly

/-! ## World transforms (rk-core/src/assembly/transforms.rs) -/

/-- Assembly::compute_joint_transform. -/
def compute_joint_transform {S V Q M : Type} (ops : GlamOps S V Q M)
    (joint_type : JointType) (axis : V) (position : S) : M :=
  match joint_type with
  | .revolute | .continuous => ops.mat_from_quat (ops.quat_from_axis_angle axis position)
  | .prismatic => ops.mat_from_translation (ops.scale_vec axis position)
  | .fixed | .floating | .planar => ops.idMat

/-- The transform computed for one link by
update_transform_recursive_with_positions: the parent transform composed
with the connecting joint's origin matrix and the joint transform at the
joint's position from the map (default zero); the parent transform alone
when the link has no parent or the joint is missing. -/
def node_transform {S V Q M : Type} (ops : GlamOps S V Q M)
    (parentMap : List (Uuid × (Uuid × Uuid))) (joints : List (Uuid × Joint S V))
    (qs : List (Uuid × S)) (link_id : Uuid) (parent_transform : M) : M :=
  match parentMap.lookup link_id with
  | some (joint_id, _) =>
    match joints.lookup joint_id with
    | some joint =>
      let position := (qs.lookup joint_id).getD ops.zero
      let joint_transform := compute_joint_transform ops joint.joint_type joint.axis position
      ops.mul (ops.mul parent_transform (ops.pose_to_mat4 joint.origin)) joint_transform
    | none => parent_transform
  | none => parent_transform

/-- Writing a link's world_transform (the links.get_mut update). -/
def Assembly.set_world {S V M : Type} (st : Assembly S V M) (link_id : Uuid) (t : M) :
    Assembly S V M :=
  { st with
    links := st.links.map (fun kv =>
      if kv.1 = link_id then (kv.1, { kv.2 with world_transform := t }) else kv) }

/-- Assembly::update_transform_recursive_with_positions, bounded by fuel
(the Rust recursion is unbounded; with fuel exceeding the tree depth the
two agree).  Computes the link's transform, stores it, and recurses over
the link's children in order (the for loop is a fold). -/
def update_transform_recursive_with_positions {S V Q M : Type} (ops : GlamOps S V Q M)
    (qs : List (Uuid × S)) :
    Nat → Assembly S V M → Uuid → M → Assembly S V M
  | 0, st, _, _ => st
  | fuel + 1, st, link_id, parent_transform =>
    let t := node_transform ops st.parent st.joints qs link_id parent_transform
    let st1 := st.set_world link_id t
    let kids := ((st1.children.lookup link_id).getD []).map (fun jc => jc.2)
    kids.foldl (fun s c => update_transform_recursive_with_positions ops qs fuel s c t) st1

/-- Assembly::get_root_links, modelled from the spec: the links that have
no parent entry. -/
def Assembly.get_root_links {S V M : Type} (st : Assembly S V M) : List Uuid :=
  (st.links.map (fun kv => kv.1)).filter (fun i => (st.parent.lookup i).isNone)

/-- Assembly::update_world_transforms_with_positions: walks every root
with the identity as the starting transform.  The fuel links.length + 1
exceeds the tree depth of every well-formed assembly. -/
def Assembly.update_world_transforms_with_positions {S V Q M : Type}
    (ops : GlamOps S V Q M) (st : Assembly S V M) (qs : List (Uuid × S)) :
    Assembly S V M :=
  let fuel := st.links.length + 1
  st.get_root_links.foldl
    (fun s root_id => update_transform_recursive_with_positions ops qs fuel s root_id ops.idMat)
    st

/-! ## Free instantiation of the external glam operations

Used to evaluate the embedded code on concrete inputs: the carrier
records, as a syntax tree, exactly which external operations the
repository code applies, so distinct composition of operations yields
distinct values. -/

/-- Free vector values over integer base vectors (the scalar carrier of
the free instantiation is ℤ for kernel-decidable arithmetic). -/
inductive FV where
  | base (v : ℤ × ℤ × ℤ)
  | scale (v : FV) (s : ℤ)
  deriving DecidableEq, Repr

/-- Free quaternion values. -/
inductive FQuat where
  | axisAngle (axis : FV) (angle : ℤ)
  deriving DecidableEq, Repr

/-- Free matrix values. -/
inductive FMat where
  | ident
  | mul (a b : FMat)
  | ofQuat (q : FQuat)
  | ofTranslation (v : FV)
  | ofPose (p : Pose ℤ)
  deriving DecidableEq, Repr

/-- The free interpretation of the glam operations. -/
def freeOps : GlamOps ℤ FV FQuat FMat :=
  { zero := 0, smul := fun a b => a * b, sadd := fun a b => a + b,
    idMat := .ident, mul := .mul,
    quat_from_axis_angle := .axisAngle, mat_from_quat := .ofQuat,
    scale_vec := .scale, mat_from_translation := .ofTranslation,
    pose_to_mat4 := .ofPose }

/-- Iterating the parent map: the ancestor reached from a link after n
steps (none when the chain ends earlier).  Step 0 is the link itself, so
the ancestor chain of the cycle check includes its starting point. -/
def Assembly.parent_iter {S V M : Type} (st : Assembly S V M) : Nat → Uuid → Option Uuid
  | 0, i => some i
  | n + 1, i =>
    match st.parent.lookup i with
    | some jp => st.parent_iter n jp.2
    | none => none

/-- A link is (weakly) below another when its parent chain reaches it. -/
def Assembly.Below {S V M : Type} (st : Assembly S V M) (x y : Uuid) : Prop :=
  ∃ n, st.parent_iter n y = some x

/-- The spec side of the extrude arm of Feature::execute, written from the
claim: extrude along plus normal by distance for Positive, along minus
normal by distance for Negative, both ways by distance / 2 and union of
the halves for Symmetric; then, when the boolean op is not New and the
target body resolves, the boolean of the target with the extruded solid. -/
def specExtrudeResult (ker : KernelOps) (sk : Sketch) (profile : Wire2D) (distance : ℚ)
    (direction : ExtrudeDirection) (boolean_op : BooleanOp) (target_body : Option Uuid)
    (bodies : List (Uuid × Solid)) : Except FeatureError Solid := do
  let extruded ←
    match direction with
    | .positive =>
        (ker.extrude profile sk.plane.origin sk.plane.normal sk.plane.normal
          distance).mapError FeatureError.cadError
    | .negative =>
        (ker.extrude profile sk.plane.origin sk.plane.normal (vneg sk.plane.normal)
          distance).mapError FeatureError.cadError
    | .symmetric => do
        let half1 ← (ker.extrude profile sk.plane.origin sk.plane.normal sk.plane.normal
          (distance / 2)).mapError FeatureError.cadError
        let half2 ← (ker.extrude profile sk.plane.origin sk.plane.normal (vneg sk.plane.normal)
          (distance / 2)).mapError FeatureError.cadError
        (ker.boolean half1 half2 .union).mapError FeatureError.cadError
  match boolean_op.toBooleanType, target_body with
  | some op, some target_id =>
    (match bodies.lookup target_id with
     | some target => (ker.boolean target extruded op).mapError FeatureError.cadError
     | none => .ok extruded)
  | _, _ => .ok extruded

/-! ## Concrete evaluation inputs -/

/-- A stand-in for Wire2D::circle used on inputs without circles. -/
def dummyCircle : Vec2 → ℚ → Nat → Wire2D := fun _ _ _ => ⟨[], true⟩

/-- A triangle sketch whose middle line (id 11) is construction geometry:
points 1, 2, 3 and lines 10 (1 to 2), 11 (2 to 3, construction),
12 (3 to 1). -/
def triSketch : Sketch :=
  { Sketch.with_id 0 (r"tri") SketchPlane.xy with
    entities := [(1, .point 1 (0, 0)), (2, .point 2 (1, 0)), (3, .point 3 (0, 1)),
                 (10, .line 10 1 2), (11, .line 11 2 3), (12, .line 12 3 1)],
    construction := [11] }

/-- A sketch with two points and the line joining them. -/
def pqSketch : Sketch :=
  { Sketch.with_id 0 (r"pq") SketchPlane.xy with
    entities := [(1, .point 1 (0, 0)), (2, .point 2 (1, 0)), (10, .line 10 1 2)] }

/-- A closed square sketch: points 1 to 4, lines 11 to 14. -/
def sqSketch : Sketch :=
  { Sketch.with_id 0 (r"sq") SketchPlane.xy with
    entities := [(1, .point 1 (0, 0)), (2, .point 2 (10, 0)),
                 (3, .point 3 (10, 5)), (4, .point 4 (0, 5)),
                 (11, .line 11 1 2), (12, .line 12 2 3),
                 (13, .line 13 3 4), (14, .line 14 4 1)] }

/-- A deterministic concrete kernel for evaluating Feature::execute. -/
def dummyKernel : KernelOps :=
  { extrude := fun _ _ _ _ _ => .ok ⟨1, true⟩,
    revolve := fun _ _ _ _ _ => .ok ⟨2, true⟩,
    boolean := fun a b _ => .ok ⟨100 + a.id + b.id, true⟩ }

/-- A concrete link with the identity cached transform. -/
def sampleLink (i : Uuid) : Link FMat := ⟨i, toString i, .ident⟩

/-- A concrete fixed joint. -/
def sampleFixedJoint (i p c : Uuid) : Joint ℤ FV :=
  ⟨i, toString i, .fixed, p, c, ⟨(0, 0, 0), (0, 0, 0)⟩, .base (0, 0, 1), none, none, none⟩

/-- A concrete revolute joint about the z axis, with an optional mimic
configuration. -/
def sampleRevoluteJoint (i p c : Uuid) (mim : Option (JointMimic ℤ)) : Joint ℤ FV :=
  ⟨i, toString i, .revolute, p, c, ⟨(0, 0, 0), (0, 0, 0)⟩, .base (0, 0, 1),
   none, none, mim⟩

/-- A concrete prismatic joint along the z axis. -/
def samplePrismaticJoint (i p c : Uuid) : Joint ℤ FV :=
  ⟨i, toString i, .prismatic, p, c, ⟨(0, 0, 0), (0, 0, 0)⟩, .base (0, 0, 1),
   none, none, none⟩

/-- A three-link chain 0 to 1 to 2 held by fixed joints 100, 101. -/
def chainAsm : Assembly ℤ FV FMat :=
  { links := [(0, sampleLink 0), (1, sampleLink 1), (2, sampleLink 2)],
    joints := [(100, sampleFixedJoint 100 0 1), (101, sampleFixedJoint 101 1 2)],
    children := [(0, [(100, 1)]), (1, [(101, 2)])],
    parent := [(1, (100, 0)), (2, (101, 1))],
    link_name_index := [], joint_name_index := [], joint_positions := [],
    transforms_dirty := false }

/-- The chain with revolute joints where joint 101 mimics joint 100 with
multiplier 2 and offset 0. -/
def mimAsm : Assembly ℤ FV FMat :=
  { chainAsm with
    joints := [(100, sampleRevoluteJoint 100 0 1 none),
               (101, sampleRevoluteJoint 101 1 2 (some ⟨100, 2, 0⟩))] }

/-- The chain with a revolute joint 100 (position given) and a prismatic
joint 101 (position absent from the map). -/
def fkAsm : Assembly ℤ FV FMat :=
  { chainAsm with
    joints := [(100, sampleRevoluteJoint 100 0 1 none),
               (101, samplePrismaticJoint 101 1 2)] }

/-- A reachable sketch used to instantiate the integrity claim: a point
entity and a constraint referencing it, built by the public operations. -/
def c5Sketch : Sketch :=
  (((Sketch.with_id 0 (r"w") SketchPlane.xy).add_entity (.point 1 (0, 0))).2.add_constraint
    ⟨50, [1]⟩).2

/-! ## Assembly well-formedness

The hypotheses of the forward-kinematics claim: the spec data-model
invariants of the Assembly (children and parent indices correspond, every
joint edge resolves, the graph is acyclic).  Acyclicity is expressed by a
measure that increases by one along each parent edge; the bound makes the
fuel of the embedded traversal sufficient.  All quantifiers are bounded by
list membership, so the property is decidable on concrete assemblies. -/
abbrev FKWF {S V M : Type} (st : Assembly S V M) (m : Uuid → Nat) : Prop :=
  (∀ pc ∈ st.children, ∀ jc ∈ pc.2, st.parent.lookup jc.2 = some (jc.1, pc.1)) ∧
  (∀ cp ∈ st.parent,
    (((st.children.lookup cp.2.2).getD []).contains (cp.2.1, cp.1)) = true) ∧
  (∀ pc ∈ st.children, (pc.2.map (fun jc => jc.2)).Nodup) ∧
  (∀ cp ∈ st.parent, m cp.1 = m cp.2.2 + 1) ∧
  (∀ cp ∈ st.parent,
    (st.links.lookup cp.1).isSome ∧ (st.links.lookup cp.2.2).isSome ∧
    (st.joints.lookup cp.2.1).isSome) ∧
  (∀ kl ∈ st.links, m kl.1 ≤ st.links.length)

/-- Two assembly states with the same graph structure and the same link
keys (they may differ in cached world transforms and other fields). -/
def ShapeEq {S V M : Type} (s0 st0 : Assembly S V M) : Prop :=
  s0.parent = st0.parent ∧ s0.children = st0.children ∧ s0.joints = st0.joints ∧
  s0.links.map (fun kv => kv.1) = st0.links.map (fun kv => kv.1) ∧
  s0.links.length = st0.links.length

/-- The contract of the recursive update on the subtree rooted at x:
links outside the subtree keep their entries, x's entry gets the computed
transform, and every strict descendant's stored transform equals the
node_transform of its parent's stored transform. -/
def UpdOut {S V Q M : Type} (ops : GlamOps S V Q M) (qs : List (Uuid × S))
    (f : Nat) (st : Assembly S V M) (x : Uuid) (T : M) : Prop :=
  (∀ y, ¬ st.Below x y →
    (update_transform_recursive_with_positions ops qs f st x T).links.lookup y
      = st.links.lookup y) ∧
  ((update_transform_recursive_with_positions ops qs f st x T).links.lookup x
    = (st.links.lookup x).map (fun l =>
        { l with world_transform := node_transform ops st.parent st.joints qs x T })) ∧
  (∀ y, st.Below x y → y ≠ x →
    ∃ j p ly lp,
      st.parent.lookup y = some (j, p) ∧
      (update_transform_recursive_with_positions ops qs f st x T).links.lookup y = some ly ∧
      (update_transform_recursive_with_positions ops qs f st x T).links.lookup p = some lp ∧
      ly.world_transform = node_transform ops st.parent st.joints qs y lp.world_transform ∧
      (st.links.lookup y).map (fun l => { l with world_transform := ly.world_transform })
        = some ly)

/-- The links of s agree with those of st except possibly in the cached
world transform: every entry of s is the corresponding entry of st with
its world transform replaced. -/
def EntryMod {S V M : Type} (s st : Assembly S V M) : Prop :=
  ∀ y l, s.links.lookup y = some l →
    (st.links.lookup y).map
      (fun l0 => { l0 with world_transform := l.world_transform }) = some l

/-! # Theorems -/

/-! ## Association list lemmas -/

theorem lookup_cons_self {β : Type} (k : Uuid) (v : β) (l : List (Uuid × β)) :
    List.lookup k ((k, v) :: l) = some v := by
  rw [List.lookup_cons, beq_self_eq_true]

theorem lookup_cons_ne {β : Type} {k a : Uuid} (v : β) (l : List (Uuid × β)) (h : k ≠ a) :
    List.lookup k ((a, v) :: l) = List.lookup k l := by
  rw [List.lookup_cons, beq_eq_false_iff_ne.mpr h]

theorem lookup_filter_key_self {β : Type} (l : List (Uuid × β)) (i : Uuid) :
    (l.filter (fun kv => kv.1 ≠ i)).lookup i = none := by
  induction l with
  | nil => rfl
  | cons kv rest ih =>
    rcases kv with ⟨k, v⟩
    rw [List.filter_cons]
    by_cases hk : k = i
    · rw [if_neg (by simp [hk])]
      exact ih
    · rw [if_pos (by simp [hk])]
      rw [lookup_cons_ne v _ (Ne.symm hk)]
      exact ih

theorem lookup_filter_key_other {β : Type} (l : List (Uuid × β)) (i e : Uuid)
    (h : e ≠ i) : (l.filter (fun kv => kv.1 ≠ i)).lookup e = l.lookup e := by
  induction l with
  | nil => rfl
  | cons kv rest ih =>
    rcases kv with ⟨k, v⟩
    rw [List.filter_cons]
    by_cases hk : k = i
    · rw [if_neg (by simp [hk])]
      rw [ih, lookup_cons_ne v _ (hk ▸ h)]
    · rw [if_pos (by simp [hk])]
      by_cases he : e = k
      · subst he
        rw [lookup_cons_self, lookup_cons_self]
      · rw [lookup_cons_ne v _ he, lookup_cons_ne v _ he, ih]

theorem lookup_map_set_value {β : Type} (l : List (Uuid × β)) (f : β → β) (i e : Uuid) :
    (l.map (fun kv => if kv.1 = i then (kv.1, f kv.2) else kv)).lookup e
      = if e = i then (l.lookup e).map f else l.lookup e := by
  induction l with
  | nil => simp [List.lookup]
  | cons kv rest ih =>
    rcases kv with ⟨k, v⟩
    by_cases hk : k = i
    · simp only [List.map_cons, if_pos hk]
      by_cases he : e = k
      · subst he
        rw [lookup_cons_self, lookup_cons_self, if_pos hk]
        rfl
      · rw [lookup_cons_ne (f v) _ he, lookup_cons_ne v _ he, ih]
    · simp only [List.map_cons, if_neg hk]
      by_cases he : e = k
      · subst he
        rw [lookup_cons_self, lookup_cons_self, if_neg hk]
      · rw [lookup_cons_ne v _ he, lookup_cons_ne v _ he, ih]

theorem lookup_append_assoc {β : Type} (l1 l2 : List (Uuid × β)) (k : Uuid) :
    (l1 ++ l2).lookup k = ((l1.lookup k).or (l2.lookup k)) := by
  induction l1 with
  | nil => simp [List.lookup]
  | cons kv rest ih =>
    rcases kv with ⟨a, b⟩
    by_cases hk : k = a
    · subst hk
      rw [List.cons_append, lookup_cons_self, lookup_cons_self]
      rfl
    · rw [List.cons_append, lookup_cons_ne b _ hk, lookup_cons_ne b _ hk, ih]

theorem lookup_hmInsert_isSome {β : Type} (l : List (Uuid × β)) (k : Uuid) (v : β)
    (e : Uuid) (h : (l.lookup e).isSome) : ((hmInsert l k v).lookup e).isSome := by
  unfold hmInsert
  by_cases hany : l.any (fun kv => kv.1 = k)
  · rw [if_pos (by simpa using hany)]
    have hfun : (fun (kv : Uuid × β) => if kv.1 = k then (k, v) else kv)
        = (fun kv => if kv.1 = k then (kv.1, (fun _ => v) kv.2) else kv) := by
      funext kv
      by_cases hk : kv.1 = k <;> simp [hk]
    rw [hfun, lookup_map_set_value l (fun _ => v) k e]
    by_cases he : e = k
    · subst he
      rcases Option.isSome_iff_exists.mp h with ⟨b, hb⟩
      rw [if_pos rfl, hb]
      rfl
    · rw [if_neg he]
      exact h
  · rw [if_neg (by simpa using hany)]
    rw [lookup_append_assoc]
    rcases Option.isSome_iff_exists.mp h with ⟨b, hb⟩
    simp [hb]

theorem mem_hmInsert {β : Type} {l : List (Uuid × β)} {k : Uuid} {v : β}
    {kv : Uuid × β} (h : kv ∈ hmInsert l k v) : kv ∈ l ∨ kv = (k, v) := by
  unfold hmInsert at h
  by_cases hany : l.any (fun kv => kv.1 = k)
  · rw [if_pos (by simpa using hany)] at h
    rcases List.mem_map.mp h with ⟨a, ha, hav⟩
    by_cases hk : a.1 = k
    · right
      rw [if_pos hk] at hav
      exact hav.symm
    · left
      rw [if_neg hk] at hav
      exact hav ▸ ha
  · rw [if_neg (by simpa using hany)] at h
    rcases List.mem_append.mp h with h | h
    · exact Or.inl h
    · exact Or.inr (List.mem_singleton.mp h)

theorem foldl_filter_keys {β : Type} (ids : List Uuid) (l : List (Uuid × β)) :
    ids.foldl (fun (m : List (Uuid × β)) cid => m.filter (fun kv => kv.1 ≠ cid)) l
      = l.filter (fun kv => !(ids.contains kv.1)) := by
  induction ids generalizing l with
  | nil => simp
  | cons i rest ih =>
    rw [List.foldl_cons, ih, List.filter_filter]
    congr 1
    funext kv
    by_cases h1 : kv.1 = i <;> by_cases h2 : rest.contains kv.1 <;>
      simp [List.contains_cons, h1, h2]

theorem eq_of_mem_keys_nodup {β : Type} {l : List (Uuid × β)}
    (hnd : (l.map (fun kv => kv.1)).Nodup) {a b : Uuid × β}
    (ha : a ∈ l) (hb : b ∈ l) (hk : a.1 = b.1) : a = b := by
  induction l with
  | nil => cases ha
  | cons kv rest ih =>
    rw [List.map_cons, List.nodup_cons] at hnd
    rcases List.mem_cons.mp ha with ha1 | ha1 <;> rcases List.mem_cons.mp hb with hb1 | hb1
    · rw [ha1, hb1]
    · exfalso
      apply hnd.1
      rw [ha1] at hk
      rw [hk]
      exact List.mem_map.mpr ⟨b, hb1, rfl⟩
    · exfalso
      apply hnd.1
      rw [hb1] at hk
      rw [← hk]
      exact List.mem_map.mpr ⟨a, ha1, rfl⟩
    · exact ih hnd.2 ha1 hb1

/-! ## Cycle-walk lemmas for connect -/

theorem cycle_walk_reaches {S V M : Type} (st : Assembly S V M) :
    ∀ (n : Nat) (x y : Uuid), st.parent_iter n x = some y →
      ∀ fuel, n < fuel → st.cycle_walk fuel (some x) y = true := by
  intro n
  induction n with
  | zero =>
    intro x y hxy fuel hf
    cases fuel with
    | zero => exact absurd hf (by omega)
    | succ f =>
      have hx : x = y := by simpa [Assembly.parent_iter] using hxy
      subst hx
      simp [Assembly.cycle_walk]
  | succ n ih =>
    intro x y hxy fuel hf
    cases fuel with
    | zero => exact absurd hf (by omega)
    | succ f =>
      unfold Assembly.parent_iter at hxy
      cases hp : st.parent.lookup x with
      | none =>
        rw [hp] at hxy
        exact absurd hxy (by simp)
      | some jp =>
        rw [hp] at hxy
        unfold Assembly.cycle_walk
        by_cases hxe : x = y
        · rw [if_pos hxe]
        · rw [if_neg hxe, hp, Option.map_some']
          exact ih jp.2 y hxy f (by omega)

/-- C2: for an assembly in which parent_id and child_id both exist as
links and child_id lies on parent_id's ancestor chain (within
parent.length steps, which covers every acyclic chain), connect returns
Err(WouldCreateCycle) and returns the assembly completely unchanged:
links, joints, children, parent, the name indices and all other fields
equal their pre-call values. -/
theorem connect_cycle_rejected_unchanged {S V M : Type} (st : Assembly S V M)
    (parent_id child_id : Uuid) (joint : Joint S V)
    (hp : (st.links.lookup parent_id).isSome)
    (hc : (st.links.lookup child_id).isSome)
    (hchain : ∃ n, n ≤ st.parent.length ∧ st.parent_iter n parent_id = some child_id) :
    st.connect parent_id child_id joint = (.error .wouldCreateCycle, st) := by
  rcases hchain with ⟨n, hn, hiter⟩
  have hw : st.would_create_cycle parent_id child_id = true := by
    unfold Assembly.would_create_cycle
    exact cycle_walk_reaches st n parent_id child_id hiter _ (by omega)
  rcases Option.isSome_iff_exists.mp hp with ⟨lp, hlp⟩
  rcases Option.isSome_iff_exists.mp hc with ⟨lc, hlc⟩
  simp [Assembly.connect, hlp, hlc, hw]

/-- Witness for C2 at the concrete chain L0 to L1 to L2 of the spec
scenario: connecting parent L2 to child L0 is rejected as a cycle with
the assembly unchanged. -/
theorem connect_cycle_rejected_unchanged_witness :
    ((chainAsm.links.lookup 2).isSome ∧ (chainAsm.links.lookup 0).isSome ∧
      (∃ n, n ≤ chainAsm.parent.length ∧ chainAsm.parent_iter n 2 = some 0)) ∧
    chainAsm.connect 2 0 (sampleFixedJoint 102 2 0) = (.error .wouldCreateCycle, chainAsm) :=
  ⟨⟨by decide, by decide, ⟨2, by decide, by decide⟩⟩,
   connect_cycle_rejected_unchanged chainAsm 2 0 (sampleFixedJoint 102 2 0)
     (by decide) (by decide) ⟨2, by decide, by decide⟩⟩

/-- C10: a self connection connect(x, x, joint) on an existing link is
rejected as WouldCreateCycle with the assembly unchanged, because the
ancestor walk starts at the parent argument and immediately matches the
child; the cycle check precedes the has-parent check, so AlreadyHasParent
is never returned here. -/
theorem connect_self_loop_rejected {S V M : Type} (st : Assembly S V M) (x : Uuid)
    (joint : Joint S V) (hx : (st.links.lookup x).isSome) :
    st.connect x x joint = (.error .wouldCreateCycle, st) := by
  rcases Option.isSome_iff_exists.mp hx with ⟨l, hl⟩
  have hw : st.would_create_cycle x x = true := by
    unfold Assembly.would_create_cycle
    exact cycle_walk_reaches st 0 x x rfl _ (by omega)
  simp [Assembly.connect, hl, hw]

/-- Witness for C10 at link 1 of the concrete chain: link 1 exists and
already has a parent, yet the result is WouldCreateCycle (not
AlreadyHasParent) and the assembly is unchanged. -/
theorem connect_self_loop_rejected_witness :
    ((chainAsm.links.lookup 1).isSome ∧ (chainAsm.parent.lookup 1).isSome) ∧
    chainAsm.connect 1 1 (sampleFixedJoint 103 1 1) = (.error .wouldCreateCycle, chainAsm) :=
  ⟨⟨by decide, by decide⟩,
   connect_self_loop_rejected chainAsm 1 (sampleFixedJoint 103 1 1) (by decide)⟩

/-- C6: the Truck back-end boolean returns Err(OperationFailed) whenever
either handle is not in the solid store or the operation is Subtract, and
in every such case the store of solids is unchanged. -/
theorem truck_boolean_failure_modes {T : Type} (solid_or solid_and : T → T → Option T)
    (freshId : Uuid) (store : List (Uuid × T)) (a b : Solid) (op : BooleanType)
    (h : store.lookup a.id = none ∨ store.lookup b.id = none ∨ op = .subtract) :
    (∃ msg, (TruckKernel.boolean solid_or solid_and freshId store a b op).1
        = .error (.operationFailed msg)) ∧
    (TruckKernel.boolean solid_or solid_and freshId store a b op).2 = store := by
  unfold TruckKernel.boolean
  rcases h with h | h | h
  · rw [h]
    exact ⟨⟨_, rfl⟩, rfl⟩
  · cases ha : store.lookup a.id with
    | none => exact ⟨⟨_, rfl⟩, rfl⟩
    | some sa =>
      rw [h]
      exact ⟨⟨_, rfl⟩, rfl⟩
  · subst h
    cases ha : store.lookup a.id with
    | none => exact ⟨⟨_, rfl⟩, rfl⟩
    | some sa =>
      cases hb : store.lookup b.id with
      | none => exact ⟨⟨_, rfl⟩, rfl⟩
      | some sb => exact ⟨⟨_, rfl⟩, rfl⟩

/-- Witness for C6: an empty store rejects a union of unknown handles and
stays unchanged. -/
theorem truck_boolean_failure_modes_witness :
    (([] : List (Uuid × Unit)).lookup (Solid.mk 0 false).id = none ∨
      ([] : List (Uuid × Unit)).lookup (Solid.mk 0 false).id = none ∨
      BooleanType.union = BooleanType.subtract) ∧
    (∃ msg, (TruckKernel.boolean (fun (_ _ : Unit) => none) (fun _ _ => none) 5 []
        (Solid.mk 0 false) (Solid.mk 0 false) BooleanType.union).1
        = .error (.operationFailed msg)) ∧
    (TruckKernel.boolean (fun (_ _ : Unit) => none) (fun _ _ => none) 5 []
        (Solid.mk 0 false) (Solid.mk 0 false) BooleanType.union).2 = [] :=
  ⟨Or.inl rfl,
   truck_boolean_failure_modes (fun _ _ => none) (fun _ _ => none) 5 []
     (Solid.mk 0 false) (Solid.mk 0 false) BooleanType.union (Or.inl rfl)⟩

/-- C7 (code evaluation at the failing input): on the triangle sketch
whose middle line 11 is construction geometry, there is no closed loop of
non-construction lines, yet trace_closed_loop runs through the
construction line and extract_profiles returns Ok with the three-point
wire instead of Err(ProfileExtractionFailed): the loop tracing never
consults the construction set. -/
theorem extract_profiles_traces_construction_line :
    triSketch.is_construction 11 = true ∧
    triSketch.trace_closed_loop 10 [] = some [10, 11, 12] ∧
    triSketch.extract_profiles dummyCircle = .ok [⟨[(0, 0), (1, 0), (0, 1)], true⟩] := by
  exact ⟨by decide, by decide, rfl⟩

/-- C9 (code evaluation at the failing input): updating world transforms
with positions map containing joint 100 at position 1, while joint 101
mimics joint 100 with multiplier 2 and offset 0: the code drives joint 101
with its own (absent) map entry, default 0, although the mimic
configuration evaluates to 2; link 2's resulting transform carries the
rotation by 0, not the rotation by 2. -/
theorem mimic_not_applied_at_input :
    (((mimAsm.update_world_transforms_with_positions freeOps [(100, 1)]).links.lookup 2).map
        (fun l => l.world_transform))
      = some (.mul (.mul (.mul (.mul .ident (.ofPose ⟨(0, 0, 0), (0, 0, 0)⟩))
            (.ofQuat (.axisAngle (.base (0, 0, 1)) 1)))
          (.ofPose ⟨(0, 0, 0), (0, 0, 0)⟩))
        (.ofQuat (.axisAngle (.base (0, 0, 1)) 0))) ∧
    ((mimAsm.joints.lookup 101).map (fun j => j.mimic)) = some (some ⟨100, 2, 0⟩) ∧
    JointMimic.calculate freeOps ⟨100, 2, 0⟩
        ((([((100 : Uuid), (1 : ℤ))]).lookup 100).getD freeOps.zero) = 2 ∧
    FMat.ofQuat (.axisAngle (.base (0, 0, 1)) 0) ≠ FMat.ofQuat (.axisAngle (.base (0, 0, 1)) 2) := by
  exact ⟨by decide, by decide, by decide, by decide⟩

/-! ## Undo history theorems -/

theorem save_state_getLast {σ τ : Type} (h : UndoHistory σ τ) (hmax : 1 ≤ h.max_history)
    (p : σ) (c : τ) (d : String) :
    (h.save_state p c d).undo_stack.getLast? = some ⟨p, c, d⟩ := by
  unfold UndoHistory.save_state
  by_cases hlen : (h.undo_stack ++ [(⟨p, c, d⟩ : UndoSnapshot σ τ)]).length > h.max_history
  · rw [if_pos hlen]
    cases hu : h.undo_stack with
    | nil =>
      exfalso
      rw [hu] at hlen
      simp at hlen
      omega
    | cons a as =>
      show (as ++ [(⟨p, c, d⟩ : UndoSnapshot σ τ)]).getLast? = _
      exact List.getLast?_concat _
  · rw [if_neg hlen]
    exact List.getLast?_concat _

/-- C4 (counterexample): with capacity max_history = 0, save_state pushes
and immediately discards the snapshot, so the following undo returns none
rather than the snapshot of the saved state. -/
theorem undo_cap_zero_counterexample :
    (((UndoHistory.new 0 : UndoHistory (List Uuid) Unit).save_state [] () (r"d")).undo
      [5] ()).1 = none := by
  decide

/-- C4 (amended): for histories with capacity at least 1, after
save_state on state s0 and the live state becoming s1, undo returns the
snapshot of s0 and pushes s1 onto the redo stack; an immediately following
redo returns s1 and pushes s0 back onto the undo stack; and the concrete
scenario AddPart(P1); AddPart(P2); Undo; Undo; Redo yields parts [P1],
then [], then [P1]. -/
theorem undo_redo_roundtrip {σ τ : Type} (h : UndoHistory σ τ) (p0 : σ) (c0 : τ)
    (d : String) (p1 : σ) (c1 : τ) (hmax : 1 ≤ h.max_history) :
    (((h.save_state p0 c0 d).undo p1 c1).1 = some ⟨p0, c0, d⟩) ∧
    (((h.save_state p0 c0 d).undo p1 c1).2.redo_stack = [⟨p1, c1, d⟩]) ∧
    ((((h.save_state p0 c0 d).undo p1 c1).2.redo p0 c0).1 = some ⟨p1, c1, d⟩) ∧
    ((((h.save_state p0 c0 d).undo p1 c1).2.redo p0 c0).2.undo_stack
      = ((h.save_state p0 c0 d).undo p1 c1).2.undo_stack ++ [⟨p0, c0, d⟩]) ∧
    (((EditorState.empty.addPart 1).addPart 2).applyUndo.parts = [1]) ∧
    (((EditorState.empty.addPart 1).addPart 2).applyUndo.applyUndo.parts = []) ∧
    (((EditorState.empty.addPart 1).addPart 2).applyUndo.applyUndo.applyRedo.parts = [1]) := by
  have hl := save_state_getLast h hmax p0 c0 d
  have hredo : (h.save_state p0 c0 d).redo_stack = [] := rfl
  have h1 : (h.save_state p0 c0 d).undo p1 c1
      = (some ⟨p0, c0, d⟩,
         { h.save_state p0 c0 d with
           undo_stack := (h.save_state p0 c0 d).undo_stack.dropLast,
           redo_stack := (h.save_state p0 c0 d).redo_stack
             ++ [⟨p1, c1, (⟨p0, c0, d⟩ : UndoSnapshot σ τ).description⟩] }) := by
    unfold UndoHistory.undo
    rw [hl]
  have hB : ((h.save_state p0 c0 d).undo p1 c1).2.redo_stack = [⟨p1, c1, d⟩] := by
    rw [h1]
    rw [hredo]
    rfl
  refine ⟨by rw [h1], hB, ?_, ?_, by decide, by decide, by decide⟩
  · unfold UndoHistory.redo
    rw [hB]
    rfl
  · unfold UndoHistory.redo
    rw [hB]
    rfl

/-- Witness for C4's amended round trip at capacity 1. -/
theorem undo_redo_roundtrip_witness :
    1 ≤ (UndoHistory.new 1 : UndoHistory (List Uuid) Unit).max_history ∧
    (((UndoHistory.new 1 : UndoHistory (List Uuid) Unit).save_state [] () (r"w")).undo
      [7] ()).1 = some ⟨[], (), r"w"⟩ :=
  ⟨by decide,
   (undo_redo_roundtrip (UndoHistory.new 1) [] () (r"w") [7] () (by decide)).1⟩

/-! ## Sketch removal and integrity theorems -/

/-- Shared helper: after remove_entity, no remaining constraint references
the removed entity (the collected related ids are removed wholesale). -/
theorem remove_entity_constraints_no_ref (s : Sketch) (i : Uuid) :
    ∀ kv ∈ (s.remove_entity i).2.constraints, kv.2.references_entity i = false := by
  intro kv hkv
  have hconstr : (s.remove_entity i).2.constraints
      = s.constraints.filter (fun kv2 =>
          !(((s.constraints.filter (fun kv3 => kv3.2.references_entity i)).map
              (fun kv3 => kv3.1)).contains kv2.1)) :=
    foldl_filter_keys _ _
  rw [hconstr] at hkv
  rcases List.mem_filter.mp hkv with ⟨hmem, hpred⟩
  cases hr : kv.2.references_entity i with
  | false => rfl
  | true =>
    exfalso
    have hin : kv.1 ∈ (s.constraints.filter (fun kv3 => kv3.2.references_entity i)).map
        (fun kv3 => kv3.1) :=
      List.mem_map.mpr ⟨kv, List.mem_filter.mpr ⟨hmem, hr⟩, rfl⟩
    have hc : (((s.constraints.filter (fun kv3 => kv3.2.references_entity i)).map
        (fun kv3 => kv3.1)).contains kv.1) = true := List.elem_iff.mpr hin
    rw [hc] at hpred
    exact absurd hpred (by decide)

/-- C8 (counterexample): removing point 1 from the sketch with line 10
referencing it leaves line 10 in the sketch, still referencing the
deleted point's UID. -/
theorem remove_entity_keeps_dependent_line :
    ((pqSketch.remove_entity 1).2.entities.lookup 1 = none) ∧
    ((pqSketch.remove_entity 1).2.entities.lookup 10 = some (.line 10 1 2)) ∧
    ((SketchEntity.line 10 1 2).referenced_points.contains 1 = true) := by
  exact ⟨by decide, by decide, by decide⟩

/-- C8 (amended): remove_entity removes the entity and every constraint
referencing it, but does not cascade to dependent entities: every entity
other than the removed one, including curves whose referenced points
include it, remains in the sketch unchanged. -/
theorem remove_entity_no_entity_cascade (s : Sketch) (i : Uuid)
    (hnd : (s.constraints.map (fun kv => kv.1)).Nodup) :
    ((s.remove_entity i).2.entities.lookup i = none) ∧
    (∀ e, e ≠ i → (s.remove_entity i).2.entities.lookup e = s.entities.lookup e) ∧
    (∀ kv ∈ (s.remove_entity i).2.constraints, kv.2.references_entity i = false) ∧
    (∀ kv ∈ s.constraints, kv.2.references_entity i = false →
        kv ∈ (s.remove_entity i).2.constraints) := by
  have hconstr : (s.remove_entity i).2.constraints
      = s.constraints.filter (fun kv2 =>
          !(((s.constraints.filter (fun kv3 => kv3.2.references_entity i)).map
              (fun kv3 => kv3.1)).contains kv2.1)) :=
    foldl_filter_keys _ _
  refine ⟨lookup_filter_key_self s.entities i,
    fun e he => lookup_filter_key_other s.entities i e he,
    remove_entity_constraints_no_ref s i, ?_⟩
  intro kv hkv hrefs
  rw [hconstr]
  refine List.mem_filter.mpr ⟨hkv, ?_⟩
  cases hcon : (((s.constraints.filter (fun kv3 => kv3.2.references_entity i)).map
      (fun kv3 => kv3.1)).contains kv.1) with
  | false => rfl
  | true =>
    exfalso
    have hmem2 : kv.1 ∈ (s.constraints.filter (fun kv3 => kv3.2.references_entity i)).map
        (fun kv3 => kv3.1) := List.elem_iff.mp hcon
    rcases List.mem_map.mp hmem2 with ⟨kv2, hkv2, hkeq⟩
    rcases List.mem_filter.mp hkv2 with ⟨hkv2m, hkv2r⟩
    have heq : kv2 = kv := eq_of_mem_keys_nodup hnd hkv2m hkv hkeq
    rw [heq] at hkv2r
    rw [hkv2r] at hrefs
    exact absurd hrefs (by decide)

/-- Witness for C8's amended claim at the concrete two-point sketch. -/
theorem remove_entity_no_entity_cascade_witness :
    ((pqSketch.constraints.map (fun kv => kv.1)).Nodup) ∧
    ((pqSketch.remove_entity 1).2.entities.lookup 1 = none) ∧
    ((pqSketch.remove_entity 1).2.entities.lookup 10 = pqSketch.entities.lookup 10) :=
  ⟨by decide, (remove_entity_no_entity_cascade pqSketch 1 (by decide)).1,
   (remove_entity_no_entity_cascade pqSketch 1 (by decide)).2.1 10 (by decide)⟩

/-- Shared helper: every sketch built by the public operations satisfies
the referential-integrity invariant. -/
theorem reachable_constraints_valid {s : Sketch} (h : Sketch.Reachable s) :
    Sketch.ConstraintsValid s := by
  induction h with
  | new i name plane =>
    intro kv hkv
    cases hkv
  | add_entity s e hs ih =>
    intro kv hkv e2 he2
    exact lookup_hmInsert_isSome s.entities e.id e e2 (ih kv hkv e2 he2)
  | modify_entity s i f hs ih =>
    intro kv hkv e2 he2
    have hsome := ih kv hkv e2 he2
    show ((s.entities.map (fun kv2 => if kv2.1 = i then (kv2.1, f kv2.2) else kv2)).lookup
        e2).isSome
    rw [lookup_map_set_value s.entities f i e2]
    by_cases he : e2 = i
    · rw [if_pos he, Option.isSome_map']
      exact hsome
    · rw [if_neg he]
      exact hsome
  | remove_entity s i hs ih =>
    intro kv hkv e2 he2
    have hrefs : kv.2.references_entity i = false :=
      remove_entity_constraints_no_ref s i kv hkv
    have hconstr : (s.remove_entity i).2.constraints
        = s.constraints.filter (fun kv2 =>
            !(((s.constraints.filter (fun kv3 => kv3.2.references_entity i)).map
                (fun kv3 => kv3.1)).contains kv2.1)) :=
      foldl_filter_keys _ _
    have hmem : kv ∈ s.constraints := by
      rw [hconstr] at hkv
      exact (List.mem_filter.mp hkv).1
    have hne : e2 ≠ i := by
      intro hei
      subst hei
      have : kv.2.references_entity e2 = true := List.elem_iff.mpr he2
      rw [this] at hrefs
      exact absurd hrefs (by decide)
    have hsome := ih kv hmem e2 he2
    show ((s.entities.filter (fun kv2 => kv2.1 ≠ i)).lookup e2).isSome
    rw [lookup_filter_key_other s.entities i e2 hne]
    exact hsome
  | add_constraint s c hs ih =>
    intro kv hkv e2 he2
    cases hf : c.referenced_entities.find? (fun e => (s.entities.lookup e).isNone) with
    | some e0 =>
      have hstate : (s.add_constraint c).2 = s := by
        unfold Sketch.add_constraint
        rw [hf]
      rw [hstate] at hkv ⊢
      exact ih kv hkv e2 he2
    | none =>
      have hstate : (s.add_constraint c).2
          = { s with constraints := hmInsert s.constraints c.id c, is_solved := false } := by
        unfold Sketch.add_constraint
        rw [hf]
      rw [hstate] at hkv ⊢
      rcases mem_hmInsert hkv with hold | hnew
      · exact ih kv hold e2 he2
      · have hall := List.find?_eq_none.mp hf
        have hkve : kv.2 = c := by rw [hnew]
        have he2c : e2 ∈ c.referenced_entities := by
          rw [← hkve]
          exact he2
        have hnn := hall e2 he2c
        cases ho : s.entities.lookup e2 with
        | none =>
          exfalso
          apply hnn
          rw [ho]
          rfl
        | some v => rfl
  | remove_constraint s i hs ih =>
    intro kv hkv e2 he2
    have hmem : kv ∈ s.constraints := (List.mem_filter.mp hkv).1
    exact ih kv hmem e2 he2
  | set_construction s i b hs ih =>
    intro kv hkv e2 he2
    cases b
    · exact ih kv hkv e2 he2
    · exact ih kv hkv e2 he2

/-- C5: every sketch built through the public operations satisfies the
referential-integrity invariant; add_constraint returns
Err(EntityNotFound) with the sketch unchanged when a referenced entity is
missing; and remove_entity removes every constraint referencing the
removed entity in the same operation. -/
theorem sketch_referential_integrity (s : Sketch) (hs : Sketch.Reachable s) :
    Sketch.ConstraintsValid s ∧
    (∀ c : SketchConstraint, (∃ e ∈ c.referenced_entities, s.entities.lookup e = none) →
      ∃ e2 ∈ c.referenced_entities, s.entities.lookup e2 = none ∧
        s.add_constraint c = (.error (.entityNotFound e2), s)) ∧
    (∀ i : Uuid, ∀ kv ∈ (s.remove_entity i).2.constraints,
      kv.2.references_entity i = false) := by
  refine ⟨reachable_constraints_valid hs, ?_, fun i => remove_entity_constraints_no_ref s i⟩
  intro c hex
  have hfindsome : (c.referenced_entities.find?
      (fun e => (s.entities.lookup e).isNone)).isSome := by
    rw [List.find?_isSome]
    rcases hex with ⟨e, hmem, hnone⟩
    refine ⟨e, hmem, ?_⟩
    rw [hnone]
    rfl
  rcases Option.isSome_iff_exists.mp hfindsome with ⟨e2, hf⟩
  have hp := List.find?_some hf
  refine ⟨e2, List.mem_of_find?_eq_some hf, Option.isNone_iff_eq_none.mp hp, ?_⟩
  unfold Sketch.add_constraint
  rw [hf]

/-! ## Feature execution theorems -/

theorem except_ok_bind {ε α β : Type} (a : α) (k : α → Except ε β) :
    (Except.ok a >>= k) = k a := rfl

theorem except_mapError_ok {ε ε2 α : Type} (f : ε → ε2) (a : α) :
    (Except.ok a : Except ε α).mapError f = .ok a := rfl

/-- C3: a non-suppressed Extrude feature whose sketch resolves and whose
profile extraction yields at least one profile extrudes the first profile
along plus normal by distance (Positive), along minus normal by distance
(Negative), or both ways by distance / 2 with a union of the halves
(Symmetric), and then, when boolean_op is not New and the target body
resolves in existing_bodies, returns kernel.boolean(target, extruded, op);
this equals the claim-side description specExtrudeResult. -/
theorem extrude_execute_matches_spec (ker : KernelOps) (vnorm : Vec3Q → Vec3Q)
    (circleFn : Vec2 → ℚ → Nat → Wire2D) (i : Uuid) (nm : String) (sketch_id : Uuid)
    (distance : ℚ) (direction : ExtrudeDirection) (boolean_op : BooleanOp)
    (target_body : Option Uuid) (draft : ℚ) (sketches : List (Uuid × Sketch))
    (bodies : List (Uuid × Solid)) (sk : Sketch) (profile : Wire2D) (rest : List Wire2D)
    (hsk : sketches.lookup sketch_id = some sk)
    (hprof : sk.extract_profiles circleFn = .ok (profile :: rest)) :
    Feature.execute ker vnorm circleFn
      (.extrude i nm sketch_id distance direction boolean_op target_body draft false)
      sketches bodies
    = specExtrudeResult ker sk profile distance direction boolean_op target_body bodies := by
  cases direction <;>
    simp only [Feature.execute, specExtrudeResult, Feature.is_suppressed,
      Bool.false_eq_true, if_false, hsk, hprof, except_mapError_ok, except_ok_bind,
      bind_assoc]

/-- Witness for C3 at the square sketch and a symmetric join extrude. -/
theorem extrude_execute_matches_spec_witness :
    (([((7 : Uuid), sqSketch)].lookup 7 = some sqSketch) ∧
     (sqSketch.extract_profiles dummyCircle
       = .ok [⟨[(0, 0), (10, 0), (10, 5), (0, 5)], true⟩])) ∧
    (Feature.execute dummyKernel id dummyCircle
        (.extrude 20 (r"E") 7 3 .symmetric .join (some 9) 0 false)
        [(7, sqSketch)] [(9, ⟨9, true⟩)]
      = specExtrudeResult dummyKernel sqSketch ⟨[(0, 0), (10, 0), (10, 5), (0, 5)], true⟩ 3
          .symmetric .join (some 9) [(9, ⟨9, true⟩)]) :=
  ⟨⟨rfl, rfl⟩,
   extrude_execute_matches_spec dummyKernel id dummyCircle 20 (r"E") 7 3 .symmetric .join
     (some 9) 0 [(7, sqSketch)] [(9, ⟨9, true⟩)] sqSketch
     ⟨[(0, 0), (10, 0), (10, 5), (0, 5)], true⟩ [] rfl rfl⟩

/-! ## Forward-kinematics helper lemmas -/

theorem mem_of_lookup {β : Type} : ∀ {l : List (Uuid × β)} {k : Uuid} {v : β},
    l.lookup k = some v → (k, v) ∈ l := by
  intro l
  induction l with
  | nil =>
    intro k v h
    cases h
  | cons kv rest ih =>
    intro k v h
    rcases kv with ⟨a, b⟩
    by_cases hk : k = a
    · subst hk
      rw [lookup_cons_self] at h
      obtain rfl : b = v := Option.some_inj.mp h
      exact List.mem_cons_self (k, b) rest
    · rw [lookup_cons_ne b _ hk] at h
      exact List.mem_cons.mpr (Or.inr (ih h))

theorem lookup_isSome_iff_mem_keys {β : Type} : ∀ (l : List (Uuid × β)) (k : Uuid),
    (l.lookup k).isSome = true ↔ k ∈ l.map (fun kv => kv.1) := by
  intro l
  induction l with
  | nil =>
    intro k
    simp [List.lookup]
  | cons kv rest ih =>
    intro k
    rcases kv with ⟨a, b⟩
    by_cases hk : k = a
    · subst hk
      rw [lookup_cons_self]
      simp
    · rw [lookup_cons_ne b _ hk]
      simp [hk, ih]

theorem lookup_isSome_congr {β γ : Type} {l1 : List (Uuid × β)} {l2 : List (Uuid × γ)}
    (h : l1.map (fun kv => kv.1) = l2.map (fun kv => kv.1)) (k : Uuid) :
    (l1.lookup k).isSome = (l2.lookup k).isSome := by
  cases h1 : (l1.lookup k).isSome <;> cases h2 : (l2.lookup k).isSome <;> try rfl
  · exfalso
    have hm := (lookup_isSome_iff_mem_keys l2 k).mp h2
    rw [← h] at hm
    rw [(lookup_isSome_iff_mem_keys l1 k).mpr hm] at h1
    cases h1
  · exfalso
    have hm := (lookup_isSome_iff_mem_keys l1 k).mp h1
    rw [h] at hm
    rw [(lookup_isSome_iff_mem_keys l2 k).mpr hm] at h2
    cases h2

theorem lookup_set_world {S V M : Type} (st : Assembly S V M) (x : Uuid) (t : M) (y : Uuid) :
    (st.set_world x t).links.lookup y
      = if y = x then (st.links.lookup y).map (fun l => { l with world_transform := t })
        else st.links.lookup y :=
  lookup_map_set_value st.links (fun l => { l with world_transform := t }) x y

theorem set_world_keys {S V M : Type} (st : Assembly S V M) (x : Uuid) (t : M) :
    (st.set_world x t).links.map (fun kv => kv.1) = st.links.map (fun kv => kv.1) := by
  show (st.links.map _).map _ = _
  rw [List.map_map]
  apply List.map_congr_left
  intro kv _
  by_cases hk : kv.1 = x <;> simp [Function.comp, hk]

theorem shape_eq_refl {S V M : Type} (st : Assembly S V M) : ShapeEq st st :=
  ⟨rfl, rfl, rfl, rfl, rfl⟩

theorem shape_eq_trans {S V M : Type} {a b c : Assembly S V M}
    (h1 : ShapeEq a b) (h2 : ShapeEq b c) : ShapeEq a c :=
  ⟨h1.1.trans h2.1, h1.2.1.trans h2.2.1, h1.2.2.1.trans h2.2.2.1,
   h1.2.2.2.1.trans h2.2.2.2.1, h1.2.2.2.2.trans h2.2.2.2.2⟩

theorem set_world_shape {S V M : Type} (st : Assembly S V M) (x : Uuid) (t : M) :
    ShapeEq (st.set_world x t) st :=
  ⟨rfl, rfl, rfl, set_world_keys st x t, by
    show (st.links.map _).length = _
    rw [List.length_map]⟩

theorem update_rec_shape {S V Q M : Type} (ops : GlamOps S V Q M) (qs : List (Uuid × S)) :
    ∀ (f : Nat) (st : Assembly S V M) (x : Uuid) (T : M),
      ShapeEq (update_transform_recursive_with_positions ops qs f st x T) st := by
  intro f
  induction f with
  | zero =>
    intro st x T
    exact shape_eq_refl st
  | succ f ih =>
    intro st x T
    have hfold : ∀ (ks : List Uuid) (s0 : Assembly S V M) (t : M),
        ShapeEq (ks.foldl
          (fun s c => update_transform_recursive_with_positions ops qs f s c t) s0) s0 := by
      intro ks
      induction ks with
      | nil =>
        intro s0 t
        exact shape_eq_refl s0
      | cons c cs ihk =>
        intro s0 t
        rw [List.foldl_cons]
        exact shape_eq_trans
          (ihk (update_transform_recursive_with_positions ops qs f s0 c t) t) (ih s0 c t)
    exact shape_eq_trans (hfold _ _ _) (set_world_shape st x _)

theorem fkwf_congr {S V M : Type} {st0 s0 : Assembly S V M} {m : Uuid → Nat}
    (hwf : FKWF st0 m) (hsh : ShapeEq s0 st0) : FKWF s0 m := by
  obtain ⟨hp, hc, hj, hk, hl⟩ := hsh
  obtain ⟨w1, w2, w3, w4, w5, w6⟩ := hwf
  refine ⟨?_, ?_, ?_, ?_, ?_, ?_⟩
  · rw [hp, hc]
    exact w1
  · rw [hp, hc]
    exact w2
  · rw [hc]
    exact w3
  · rw [hp]
    exact w4
  · rw [hp, hj]
    intro cp hcp
    obtain ⟨d1, d2, d3⟩ := w5 cp hcp
    rw [lookup_isSome_congr hk cp.1, lookup_isSome_congr hk cp.2.2]
    exact ⟨d1, d2, d3⟩
  · rw [hl]
    intro kl hkl
    have hmem : kl.1 ∈ st0.links.map (fun kv => kv.1) := by
      rw [← hk]
      exact List.mem_map.mpr ⟨kl, hkl, rfl⟩
    rcases List.mem_map.mp hmem with ⟨kl0, hkl0, hke⟩
    rw [← hke]
    exact w6 kl0 hkl0

theorem parent_iter_add {S V M : Type} (st : Assembly S V M) :
    ∀ (a b : Nat) (y : Uuid),
      st.parent_iter (a + b) y = (st.parent_iter a y).bind (fun z => st.parent_iter b z) := by
  intro a
  induction a with
  | zero =>
    intro b y
    simp [Assembly.parent_iter]
  | succ a ih =>
    intro b y
    rw [show a + 1 + b = (a + b) + 1 from by omega]
    cases hp : st.parent.lookup y with
    | none => simp [Assembly.parent_iter, hp]
    | some jp => simp [Assembly.parent_iter, hp, ih]

theorem parent_iter_measure {S V M : Type} {st : Assembly S V M} {m : Uuid → Nat}
    (hmeas : ∀ cp ∈ st.parent, m cp.1 = m cp.2.2 + 1) :
    ∀ (n : Nat) (y x : Uuid), st.parent_iter n y = some x → m y = m x + n := by
  intro n
  induction n with
  | zero =>
    intro y x h
    obtain rfl : y = x := Option.some_inj.mp h
    rfl
  | succ n ih =>
    intro y x h
    unfold Assembly.parent_iter at h
    cases hp : st.parent.lookup y with
    | none =>
      rw [hp] at h
      cases h
    | some jp =>
      rw [hp] at h
      have hm : m y = m jp.2 + 1 := hmeas (y, jp) (mem_of_lookup hp)
      have hstep := ih jp.2 x h
      omega

theorem below_refl {S V M : Type} (st : Assembly S V M) (x : Uuid) : st.Below x x :=
  ⟨0, rfl⟩

theorem below_step {S V M : Type} (st : Assembly S V M) {c : Uuid} {jp : Uuid × Uuid}
    (h : st.parent.lookup c = some jp) : st.Below jp.2 c :=
  ⟨1, by simp [Assembly.parent_iter, h]⟩


theorem below_trans {S V M : Type} {st : Assembly S V M} {x y z : Uuid}
    (h1 : st.Below x y) (h2 : st.Below y z) : st.Below x z := by
  rcases h1 with ⟨a, ha⟩
  rcases h2 with ⟨b, hb⟩
  refine ⟨b + a, ?_⟩
  rw [parent_iter_add st b a z, hb]
  exact ha

theorem below_eq_of_measure {S V M : Type} {st : Assembly S V M} {m : Uuid → Nat}
    (hmeas : ∀ cp ∈ st.parent, m cp.1 = m cp.2.2 + 1) {c1 c2 y : Uuid}
    (h1 : st.Below c1 y) (h2 : st.Below c2 y) (hm : m c1 = m c2) : c1 = c2 := by
  rcases h1 with ⟨k1, hk1⟩
  rcases h2 with ⟨k2, hk2⟩
  have e1 := parent_iter_measure hmeas k1 y c1 hk1
  have e2 := parent_iter_measure hmeas k2 y c2 hk2
  obtain rfl : k1 = k2 := by omega
  rw [hk1] at hk2
  exact Option.some_inj.mp hk2

theorem below_measure_le {S V M : Type} {st : Assembly S V M} {m : Uuid → Nat}
    (hmeas : ∀ cp ∈ st.parent, m cp.1 = m cp.2.2 + 1) {c y : Uuid}
    (h : st.Below c y) : m c ≤ m y := by
  rcases h with ⟨k, hk⟩
  have := parent_iter_measure hmeas k y c hk
  omega

theorem below_first_step {S V M : Type} {st : Assembly S V M} {x y : Uuid}
    (h : st.Below x y) (hne : y ≠ x) :
    ∃ jp : Uuid × Uuid, st.parent.lookup y = some jp ∧ st.Below x jp.2 := by
  rcases h with ⟨k, hk⟩
  cases k with
  | zero => exact absurd (Option.some_inj.mp hk) hne
  | succ k =>
    unfold Assembly.parent_iter at hk
    cases hp : st.parent.lookup y with
    | none =>
      rw [hp] at hk
      cases hk
    | some jp =>
      rw [hp] at hk
      exact ⟨jp, rfl, ⟨k, hk⟩⟩

theorem below_last_step {S V M : Type} {st : Assembly S V M} {x y : Uuid}
    (h : st.Below x y) (hne : y ≠ x) :
    ∃ z j, st.Below z y ∧ st.parent.lookup z = some (j, x) := by
  rcases h with ⟨k, hk⟩
  cases k with
  | zero => exact absurd (Option.some_inj.mp hk) hne
  | succ k =>
    rw [parent_iter_add st k 1 y] at hk
    cases hz : st.parent_iter k y with
    | none =>
      rw [hz] at hk
      cases hk
    | some z =>
      rw [hz] at hk
      cases hp : st.parent.lookup z with
      | none =>
        exfalso
        have hnone : st.parent_iter 1 z = none := by
          unfold Assembly.parent_iter
          rw [hp]
        rw [show ((some z).bind (fun w => st.parent_iter 1 w)) = st.parent_iter 1 z from rfl,
          hnone] at hk
        cases hk
      | some jp =>
        have hx : jp.2 = x := by
          have h1 : st.parent_iter 1 z = some jp.2 := by
            simp [Assembly.parent_iter, hp]
          rw [show ((some z).bind (fun w => st.parent_iter 1 w)) = st.parent_iter 1 z from rfl,
            h1] at hk
          exact Option.some_inj.mp hk
        refine ⟨z, jp.1, ⟨k, hz⟩, ?_⟩
        rw [hp, ← hx]

theorem parent_iter_past_root {S V M : Type} {st : Assembly S V M} {y r : Uuid} {k : Nat}
    (hk : st.parent_iter k y = some r) (hr : st.parent.lookup r = none) :
    ∀ (d : Nat) (r2 : Uuid), st.parent_iter (k + d) y = some r2 → r2 = r := by
  intro d r2 h2
  rw [parent_iter_add st k d y, hk] at h2
  cases d with
  | zero => exact (Option.some_inj.mp h2).symm
  | succ d =>
    exfalso
    have hnone : st.parent_iter (d + 1) r = none := by
      unfold Assembly.parent_iter
      rw [hr]
    rw [show ((some r).bind (fun w => st.parent_iter (d + 1) w))
        = st.parent_iter (d + 1) r from rfl, hnone] at h2
    cases h2

theorem below_root_unique {S V M : Type} {st : Assembly S V M} {r1 r2 y : Uuid}
    (hr1 : st.parent.lookup r1 = none) (hr2 : st.parent.lookup r2 = none)
    (h1 : st.Below r1 y) (h2 : st.Below r2 y) : r1 = r2 := by
  rcases h1 with ⟨k1, hk1⟩
  rcases h2 with ⟨k2, hk2⟩
  rcases Nat.le_total k1 k2 with hle | hle
  · have := parent_iter_past_root hk1 hr1 (k2 - k1) r2
    rw [show k1 + (k2 - k1) = k2 from by omega] at this
    exact (this hk2).symm
  · have := parent_iter_past_root hk2 hr2 (k1 - k2) r1
    rw [show k2 + (k1 - k2) = k1 from by omega] at this
    exact this hk1

theorem below_root_exists {S V M : Type} {st : Assembly S V M} {m : Uuid → Nat}
    (hmeas : ∀ cp ∈ st.parent, m cp.1 = m cp.2.2 + 1)
    (hdom : ∀ cp ∈ st.parent, (st.links.lookup cp.2.2).isSome = true) :
    ∀ (n : Nat) (c : Uuid), m c ≤ n → (st.links.lookup c).isSome = true →
      ∃ r, (st.links.lookup r).isSome = true ∧ st.parent.lookup r = none ∧ st.Below r c := by
  intro n
  induction n with
  | zero =>
    intro c hmc hcl
    cases hp : st.parent.lookup c with
    | none => exact ⟨c, hcl, hp, below_refl st c⟩
    | some jp =>
      exfalso
      have hm : m c = m jp.2 + 1 := hmeas (c, jp) (mem_of_lookup hp)
      omega
  | succ n ihn =>
    intro c hmc hcl
    cases hp : st.parent.lookup c with
    | none => exact ⟨c, hcl, hp, below_refl st c⟩
    | some jp =>
      have hm : m c = m jp.2 + 1 := hmeas (c, jp) (mem_of_lookup hp)
      have hpl : (st.links.lookup jp.2).isSome = true := hdom (c, jp) (mem_of_lookup hp)
      rcases ihn jp.2 (by omega) hpl with ⟨r, hl1, hl2, hl3⟩
      exact ⟨r, hl1, hl2, below_trans hl3 (below_step st hp)⟩

theorem parent_iter_congr {S V M S2 V2 M2 : Type} {s0 : Assembly S V M}
    {st : Assembly S2 V2 M2} (h : s0.parent = st.parent) :
    ∀ (n : Nat) (y : Uuid), s0.parent_iter n y = st.parent_iter n y := by
  intro n
  induction n with
  | zero =>
    intro y
    rfl
  | succ n ih =>
    intro y
    unfold Assembly.parent_iter
    rw [h]
    cases st.parent.lookup y with
    | none => rfl
    | some jp => exact ih jp.2

theorem below_congr {S V M S2 V2 M2 : Type} {s0 : Assembly S V M}
    {st : Assembly S2 V2 M2} (h : s0.parent = st.parent) (a b : Uuid) :
    s0.Below a b ↔ st.Below a b := by
  unfold Assembly.Below
  constructor
  · rintro ⟨n, hn⟩
    refine ⟨n, ?_⟩
    rw [← parent_iter_congr h n b]
    exact hn
  · rintro ⟨n, hn⟩
    refine ⟨n, ?_⟩
    rw [parent_iter_congr h n b]
    exact hn

/-- The recursive update is correct on the subtree rooted at x: outside
entries are untouched, x receives the transform computed from the given
parent transform, and every strict descendant's stored transform is the
node transform of its parent's stored transform. -/
theorem update_rec_correct {S V Q M : Type} (ops : GlamOps S V Q M) (qs : List (Uuid × S))
    (m : Uuid → Nat) :
    ∀ (f : Nat) (st : Assembly S V M) (x : Uuid) (T : M),
      FKWF st m → (st.links.lookup x).isSome = true →
      st.links.length + 1 ≤ f + m x →
      UpdOut ops qs f st x T := by
  intro f
  induction f with
  | zero =>
    intro st x T hwf hx hfuel
    exfalso
    rcases Option.isSome_iff_exists.mp hx with ⟨lx, hlx⟩
    have hb : m x ≤ st.links.length := hwf.2.2.2.2.2 (x, lx) (mem_of_lookup hlx)
    omega
  | succ f ih =>
    intro st x T hwf hx hfuel
    have w4 := hwf.2.2.2.1
    have hstep : update_transform_recursive_with_positions ops qs (f + 1) st x T
        = (((st.children.lookup x).getD []).map (fun jc => jc.2)).foldl
            (fun s c => update_transform_recursive_with_positions ops qs f s c
              (node_transform ops st.parent st.joints qs x T))
            (st.set_world x (node_transform ops st.parent st.joints qs x T)) := rfl
    have hkid_par : ∀ c ∈ ((st.children.lookup x).getD []).map (fun jc => jc.2),
        ∃ j, st.parent.lookup c = some (j, x) := by
      intro c hc
      rcases List.mem_map.mp hc with ⟨jc, hjc, rfl⟩
      cases hcl : st.children.lookup x with
      | none =>
        rw [hcl] at hjc
        cases hjc
      | some l =>
        rw [hcl] at hjc
        have hp : st.parent.lookup jc.2 = some (jc.1, x) :=
          hwf.1 (x, l) (mem_of_lookup hcl) jc hjc
        exact ⟨jc.1, hp⟩
    have hkid_m : ∀ c ∈ ((st.children.lookup x).getD []).map (fun jc => jc.2),
        m c = m x + 1 := by
      intro c hc
      rcases hkid_par c hc with ⟨j, hj⟩
      have : m c = m x + 1 := w4 (c, (j, x)) (mem_of_lookup hj)
      exact this
    have hkid_nodup : (((st.children.lookup x).getD []).map (fun jc => jc.2)).Nodup := by
      cases hcl : st.children.lookup x with
      | none => exact List.nodup_nil
      | some l => exact hwf.2.2.1 (x, l) (mem_of_lookup hcl)
    -- the fold over a list of children of x, each processed with fuel f
    have hfold : ∀ (tM : M) (ks : List Uuid), ks.Nodup →
        (∀ c ∈ ks, ∃ j, st.parent.lookup c = some (j, x)) →
        ∀ (s0 : Assembly S V M), ShapeEq s0 st →
        ((∀ y, (∀ c ∈ ks, ¬ st.Below c y) →
           (ks.foldl (fun s c => update_transform_recursive_with_positions ops qs f s c tM)
             s0).links.lookup y = s0.links.lookup y) ∧
         (∀ c ∈ ks, ∀ y, st.Below c y →
           ∃ ly,
             (ks.foldl (fun s c => update_transform_recursive_with_positions ops qs f s c tM)
               s0).links.lookup y = some ly ∧
             (s0.links.lookup y).map
               (fun l => { l with world_transform := ly.world_transform }) = some ly ∧
             (y = c → ly.world_transform
               = node_transform ops st.parent st.joints qs c tM) ∧
             (y ≠ c → ∃ j p lp, st.parent.lookup y = some (j, p) ∧
                (ks.foldl
                  (fun s c => update_transform_recursive_with_positions ops qs f s c tM)
                  s0).links.lookup p = some lp ∧
                ly.world_transform
                  = node_transform ops st.parent st.joints qs y lp.world_transform))) := by
      intro tM ks
      induction ks with
      | nil =>
        intro _ _ s0 hsh
        exact ⟨fun y _ => rfl, fun c hc => absurd hc (List.not_mem_nil c)⟩
      | cons c cs ihk =>
        intro hnd hpar s0 hsh
        obtain ⟨hc_notmem, hnd_cs⟩ := List.nodup_cons.mp hnd
        rcases hpar c (List.mem_cons_self c cs) with ⟨jc, hjc⟩
        have hFK0 : FKWF s0 m := fkwf_congr hwf hsh
        have hmc : m c = m x + 1 := w4 (c, (jc, x)) (mem_of_lookup hjc)
        have hc_links_st : (st.links.lookup c).isSome = true :=
          (hwf.2.2.2.2.1 (c, (jc, x)) (mem_of_lookup hjc)).1
        have hc_links0 : (s0.links.lookup c).isSome = true := by
          rw [lookup_isSome_congr hsh.2.2.2.1 c]
          exact hc_links_st
        have hfuel_c : s0.links.length + 1 ≤ f + m c := by
          rw [hsh.2.2.2.2]
          omega
        obtain ⟨u1, u2, u3⟩ := ih s0 c tM hFK0 hc_links0 hfuel_c
        -- translate the s0-relative components to st-relative ones
        have u1s : ∀ y, ¬ st.Below c y →
            (update_transform_recursive_with_positions ops qs f s0 c tM).links.lookup y
              = s0.links.lookup y :=
          fun y hy => u1 y (fun hb => hy ((below_congr hsh.1 c y).mp hb))
        rw [hsh.1, hsh.2.2.1] at u2
        have hshape1 : ShapeEq (update_transform_recursive_with_positions ops qs f s0 c tM) st :=
          shape_eq_trans (update_rec_shape ops qs f s0 c tM) hsh
        obtain ⟨A2, B2⟩ := ihk hnd_cs
          (fun c2 hc2 => hpar c2 (List.mem_cons.mpr (Or.inr hc2)))
          (update_transform_recursive_with_positions ops qs f s0 c tM) hshape1
        have hdisj : ∀ c2 ∈ cs, ∀ y, st.Below c y → ¬ st.Below c2 y := by
          intro c2 hc2 y hcy hc2y
          rcases hpar c2 (List.mem_cons.mpr (Or.inr hc2)) with ⟨j2, hj2⟩
          have hmc2 : m c2 = m x + 1 := w4 (c2, (j2, x)) (mem_of_lookup hj2)
          have hceq : c = c2 := below_eq_of_measure w4 hcy hc2y (by omega)
          rw [hceq] at hc_notmem
          exact hc_notmem hc2
        have huntouched : ∀ y, st.Below c y →
            (cs.foldl (fun s c => update_transform_recursive_with_positions ops qs f s c tM)
              (update_transform_recursive_with_positions ops qs f s0 c tM)).links.lookup y
              = (update_transform_recursive_with_positions ops qs f s0 c tM).links.lookup y :=
          fun y hy => A2 y (fun c2 hc2 => hdisj c2 hc2 y hy)
        simp only [List.foldl_cons]
        constructor
        · -- locality for the whole list
          intro y hy
          rw [A2 y (fun c2 hc2 => hy c2 (List.mem_cons.mpr (Or.inr hc2)))]
          exact u1s y (hy c (List.mem_cons_self c cs))
        · intro c2 hc2 y hBy
          rcases List.mem_cons.mp hc2 with rfl | hc2cs
          · -- the head child c
            rw [huntouched y hBy]
            by_cases hyc : y = c2
            · subst hyc
              rcases Option.isSome_iff_exists.mp hc_links0 with ⟨l0, hl0⟩
              refine ⟨{ l0 with
                  world_transform := node_transform ops st.parent st.joints qs y tM },
                ?_, ?_, ?_, ?_⟩
              · rw [u2, hl0]
                rfl
              · rw [hl0]
                rfl
              · intro _
                rfl
              · intro hcc
                exact absurd rfl hcc
            · obtain ⟨j, p, ly, lp, hpy, hly, hlp, hrel, hshp⟩ :=
                u3 y ((below_congr hsh.1 c2 y).mpr hBy) hyc
              rw [hsh.1] at hpy
              rw [hsh.1, hsh.2.2.1] at hrel
              have hBp : st.Below c2 p := by
                rcases below_first_step hBy hyc with ⟨jp0, hjp0, hbp⟩
                have : jp0 = (j, p) := by
                  rw [hjp0] at hpy
                  exact Option.some_inj.mp hpy
                rw [this] at hbp
                exact hbp
              refine ⟨ly, hly, hshp, ?_, ?_⟩
              · intro hyy
                exact absurd hyy hyc
              · intro _
                refine ⟨j, p, lp, hpy, ?_, hrel⟩
                rw [huntouched p hBp]
                exact hlp
          · -- a later child c2
            obtain ⟨ly, hly, hshp1, heq, hne⟩ := B2 c2 hc2cs y hBy
            refine ⟨ly, hly, ?_, heq, hne⟩
            have hnc : ¬ st.Below c y := by
              intro hcy
              exact hdisj c2 hc2cs y hcy hBy
            rw [u1s y hnc] at hshp1
            exact hshp1
    -- apply the fold lemma to the children of x
    obtain ⟨FA, FB⟩ := hfold (node_transform ops st.parent st.joints qs x T)
      (((st.children.lookup x).getD []).map (fun jc => jc.2)) hkid_nodup hkid_par
      (st.set_world x (node_transform ops st.parent st.joints qs x T))
      (set_world_shape st x _)
    have hkid_below : ∀ c ∈ ((st.children.lookup x).getD []).map (fun jc => jc.2),
        st.Below x c := by
      intro c hc
      rcases hkid_par c hc with ⟨j, hj⟩
      exact below_step st hj
    have hx_untouched : ∀ c ∈ ((st.children.lookup x).getD []).map (fun jc => jc.2),
        ¬ st.Below c x := by
      intro c hc hcx
      have hmc := hkid_m c hc
      have := below_measure_le w4 hcx
      omega
    refine ⟨?_, ?_, ?_⟩
    · -- entries outside the subtree of x
      intro y hy
      rw [hstep]
      have hyx : y ≠ x := fun h => hy (h ▸ below_refl st x)
      rw [FA y (fun c hc hcy => hy (below_trans (hkid_below c hc) hcy))]
      rw [lookup_set_world st x _ y, if_neg hyx]
    · -- the entry of x itself
      rw [hstep]
      rw [FA x (fun c hc hcx => hx_untouched c hc hcx)]
      rw [lookup_set_world st x _ x, if_pos rfl]
    · -- strict descendants of x
      intro y hBy hyx
      rcases below_last_step hBy hyx with ⟨z, j0, hzy, hzp⟩
      have hz_mem : z ∈ ((st.children.lookup x).getD []).map (fun jc => jc.2) := by
        have hcontains := hwf.2.1 (z, (j0, x)) (mem_of_lookup hzp)
        have hmm : ((j0, x).1, z) ∈ (st.children.lookup x).getD [] := List.elem_iff.mp hcontains
        exact List.mem_map.mpr ⟨(j0, z), hmm, rfl⟩
      obtain ⟨ly, hly, hshp, heq, hne⟩ := FB z hz_mem y hzy
      have hxw : (((((st.children.lookup x).getD []).map (fun jc => jc.2)).foldl
          (fun s c => update_transform_recursive_with_positions ops qs f s c
            (node_transform ops st.parent st.joints qs x T))
          (st.set_world x (node_transform ops st.parent st.joints qs x T))).links.lookup x)
          = (st.links.lookup x).map (fun l =>
              { l with world_transform := node_transform ops st.parent st.joints qs x T }) := by
        rw [FA x (fun c hc hcx => hx_untouched c hc hcx)]
        rw [lookup_set_world st x _ x, if_pos rfl]
      have hshp_st : (st.links.lookup y).map
          (fun l => { l with world_transform := ly.world_transform }) = some ly := by
        rw [lookup_set_world st x _ y, if_neg hyx] at hshp
        exact hshp
      by_cases hyz : y = z
      · -- y is a direct child of x
        subst hyz
        rcases Option.isSome_iff_exists.mp hx with ⟨lx, hlx⟩
        refine ⟨j0, x, ly,
          { lx with world_transform := node_transform ops st.parent st.joints qs x T },
          hzp, ?_, ?_, ?_, hshp_st⟩
        · rw [hstep]
          exact hly
        · rw [hstep, hxw, hlx]
          rfl
        · rw [heq rfl]
      · rcases hne hyz with ⟨j, p, lp, hpy, hlp, hrel⟩
        refine ⟨j, p, ly, lp, hpy, ?_, ?_, hrel, hshp_st⟩
        · rw [hstep]
          exact hly
        · rw [hstep]
          exact hlp

/-- Entry agreement modulo the world transform composes: if s0's entries
are st's entries with a replaced world transform, then any link equal to
an s0 entry with a replaced world transform is also an st entry with a
replaced world transform. -/
theorem entry_mod_step {S V M : Type} {s0 st : Assembly S V M} (hem : EntryMod s0 st)
    {y : Uuid} {l : Link M}
    (h : (s0.links.lookup y).map
      (fun q => { q with world_transform := l.world_transform }) = some l) :
    (st.links.lookup y).map
      (fun q => { q with world_transform := l.world_transform }) = some l := by
  cases hcl : s0.links.lookup y with
  | none =>
    rw [hcl] at h
    cases h
  | some l00 =>
    rw [hcl] at h
    have h1 : ({ l00 with world_transform := l.world_transform } : Link M) = l :=
      Option.some_inj.mp h
    have h2 := hem y l00 hcl
    cases hst : st.links.lookup y with
    | none =>
      rw [hst] at h2
      cases h2
    | some l0 =>
      rw [hst] at h2
      have h3 : ({ l0 with world_transform := l00.world_transform } : Link M) = l00 :=
        Option.some_inj.mp h2
      have h5 := congrArg
        (fun q : Link M => { q with world_transform := l.world_transform }) h3
      have h4 : ({ l0 with world_transform := l.world_transform } : Link M) = l :=
        h5.trans h1
      exact congrArg some h4

/-- At a link with no parent entry the computed node transform is the
incoming parent transform itself. -/
theorem node_transform_root {S V Q M : Type} (ops : GlamOps S V Q M)
    (pm : List (Uuid × (Uuid × Uuid))) (js : List (Uuid × Joint S V)) (qs : List (Uuid × S))
    (y : Uuid) (T : M) (h : pm.lookup y = none) :
    node_transform ops pm js qs y T = T := by
  unfold node_transform
  rw [h]

/-- At a link with a resolving parent edge the computed node transform is
parent times origin pose times the joint transform at the looked-up
position. -/
theorem node_transform_edge {S V Q M : Type} (ops : GlamOps S V Q M)
    (pm : List (Uuid × (Uuid × Uuid))) (js : List (Uuid × Joint S V)) (qs : List (Uuid × S))
    (y j p : Uuid) (J : Joint S V) (T : M)
    (h1 : pm.lookup y = some (j, p)) (h2 : js.lookup j = some J) :
    node_transform ops pm js qs y T
      = ops.mul (ops.mul T (ops.pose_to_mat4 J.origin))
          (compute_joint_transform ops J.joint_type J.axis ((qs.lookup j).getD ops.zero)) := by
  simp [node_transform, h1, h2]

/-- Folding the recursive update over a list of parentless roots: the
shape is preserved, entries change only in their world transform, links
below none of the roots keep their entries, and every link below one of
the roots gets the identity (roots) or its parent's stored transform
composed through its joint (descendants). -/
theorem roots_fold {S V Q M : Type} (ops : GlamOps S V Q M) (qs : List (Uuid × S))
    (m : Uuid → Nat) (st : Assembly S V M) (hwf : FKWF st m) (f : Nat)
    (hf : st.links.length + 1 ≤ f) :
    ∀ (rs : List Uuid),
      (∀ r ∈ rs, st.parent.lookup r = none ∧ (st.links.lookup r).isSome = true) →
      ∀ (s0 : Assembly S V M), ShapeEq s0 st → EntryMod s0 st →
      ShapeEq (rs.foldl
        (fun s r => update_transform_recursive_with_positions ops qs f s r ops.idMat) s0)
        st ∧
      EntryMod (rs.foldl
        (fun s r => update_transform_recursive_with_positions ops qs f s r ops.idMat) s0)
        st ∧
      (∀ y, (∀ r ∈ rs, ¬ st.Below r y) →
        (rs.foldl (fun s r => update_transform_recursive_with_positions ops qs f s r ops.idMat)
          s0).links.lookup y = s0.links.lookup y) ∧
      (∀ y, (∃ r ∈ rs, st.Below r y) →
        ∃ ly, (rs.foldl
            (fun s r => update_transform_recursive_with_positions ops qs f s r ops.idMat)
            s0).links.lookup y = some ly ∧
          (st.parent.lookup y = none → ly.world_transform = ops.idMat) ∧
          (∀ j p, st.parent.lookup y = some (j, p) →
            ∃ lp, (rs.foldl
                (fun s r => update_transform_recursive_with_positions ops qs f s r ops.idMat)
                s0).links.lookup p = some lp ∧
              ly.world_transform
                = node_transform ops st.parent st.joints qs y lp.world_transform)) := by
  intro rs
  induction rs with
  | nil =>
    intro _ s0 hsh hem
    refine ⟨hsh, hem, fun y _ => rfl, ?_⟩
    rintro y ⟨r, hr, _⟩
    cases hr
  | cons r rest ih =>
    intro hroots s0 hsh hem
    have hr0 := hroots r (List.mem_cons_self r rest)
    obtain ⟨u1, u2, u3⟩ := update_rec_correct ops qs m f s0 r ops.idMat
      (fkwf_congr hwf hsh)
      (by rw [lookup_isSome_congr hsh.2.2.2.1 r]; exact hr0.2)
      (by rw [hsh.2.2.2.2]; omega)
    have hsh1 : ShapeEq (update_transform_recursive_with_positions ops qs f s0 r ops.idMat)
        st := shape_eq_trans (update_rec_shape ops qs f s0 r ops.idMat) hsh
    have hbc : ∀ a b, s0.Below a b ↔ st.Below a b := below_congr hsh.1
    have hem1 : EntryMod (update_transform_recursive_with_positions ops qs f s0 r ops.idMat)
        st := by
      intro y l hyl
      by_cases hby : s0.Below r y
      · by_cases hyr : y = r
        · subst hyr
          rw [u2] at hyl
          cases hcl : s0.links.lookup y with
          | none =>
            rw [hcl] at hyl
            cases hyl
          | some l00 =>
            rw [hcl] at hyl
            have hleq : ({ l00 with
                world_transform := node_transform ops s0.parent s0.joints qs y ops.idMat }
                : Link M) = l := Option.some_inj.mp hyl
            refine entry_mod_step hem ?_
            rw [hcl, ← hleq]
            rfl
        · obtain ⟨j, p, ly, lp, hpy, hly, hlp, hrel, hshp⟩ := u3 y hby hyr
          rw [hly] at hyl
          obtain rfl : ly = l := Option.some_inj.mp hyl
          exact entry_mod_step hem hshp
      · rw [u1 y hby] at hyl
        exact hem y l hyl
    obtain ⟨hshF, hemF, hI1, hI2⟩ := ih (fun r2 h2 => hroots r2 (List.mem_cons_of_mem r h2))
      (update_transform_recursive_with_positions ops qs f s0 r ops.idMat) hsh1 hem1
    simp only [List.foldl_cons]
    refine ⟨hshF, hemF, ?_, ?_⟩
    · intro y hy
      rw [hI1 y (fun r2 h2 => hy r2 (List.mem_cons_of_mem r h2))]
      exact u1 y (fun hb => hy r (List.mem_cons_self r rest) ((hbc r y).mp hb))
    · rintro y ⟨r2, hr2, hby⟩
      by_cases hrest : ∃ r3 ∈ rest, st.Below r3 y
      · exact hI2 y hrest
      · have hbry : st.Below r y := by
          rcases List.mem_cons.mp hr2 with rfl | h2
          · exact hby
          · exact absurd ⟨r2, h2, hby⟩ hrest
        have huy : ∀ z, st.Below r z →
            (rest.foldl
              (fun s c => update_transform_recursive_with_positions ops qs f s c ops.idMat)
              (update_transform_recursive_with_positions ops qs f s0 r ops.idMat)).links.lookup
                z
            = (update_transform_recursive_with_positions ops qs f s0 r
                ops.idMat).links.lookup z := by
          intro z hbz
          refine hI1 z ?_
          intro r3 h3 hb3
          have heqr : r3 = r := below_root_unique
            (hroots r3 (List.mem_cons_of_mem r h3)).1 hr0.1 hb3 hbz
          subst heqr
          exact hrest ⟨r3, h3, hbry⟩
        by_cases hyr : y = r
        · subst hyr
          have hsome : (s0.links.lookup y).isSome = true :=
            (lookup_isSome_congr hsh.2.2.2.1 y).trans hr0.2
          rcases Option.isSome_iff_exists.mp hsome with ⟨l00, hl00⟩
          refine ⟨{ l00 with
              world_transform := node_transform ops s0.parent s0.joints qs y ops.idMat },
            ?_, ?_, ?_⟩
          · rw [huy y (below_refl st y), u2, hl00]
            rfl
          · intro hpn
            show node_transform ops s0.parent s0.joints qs y ops.idMat = ops.idMat
            rw [hsh.1]
            exact node_transform_root ops st.parent s0.joints qs y ops.idMat hpn
          · intro j p hpy
            exfalso
            rw [hr0.1] at hpy
            cases hpy
        · obtain ⟨j, p, ly, lp, hpy, hly, hlp, hrel, hshp⟩ :=
            u3 y ((hbc r y).mpr hbry) hyr
          have hpy' : st.parent.lookup y = some (j, p) := by
            rw [← hsh.1]
            exact hpy
          have hbp : st.Below r p := by
            rcases below_first_step hbry hyr with ⟨jp0, hjp0, hb⟩
            have hjp : jp0 = (j, p) := by
              rw [hjp0] at hpy'
              exact Option.some_inj.mp hpy'
            rw [hjp] at hb
            exact hb
          refine ⟨ly, ?_, ?_, ?_⟩
          · rw [huy y hbry]
            exact hly
          · intro hpn
            exfalso
            rw [hpn] at hpy'
            cases hpy'
          · intro j2 p2 hpy2
            rw [hpy'] at hpy2
            have hpair : (j, p) = (j2, p2) := Option.some_inj.mp hpy2
            injection hpair with hj2 hp2
            subst hj2
            subst hp2
            refine ⟨lp, ?_, ?_⟩
            · rw [huy p hbp]
              exact hlp
            · rw [← hsh.1, ← hsh.2.2.1]
              exact hrel

/-- C1: forward kinematics.  After update_world_transforms_with_positions
on a well-formed assembly, every parentless link's world transform is the
identity matrix (its entry otherwise unchanged), and every parented
link's world transform is its parent's stored world transform times the
connecting joint's origin pose matrix times the joint transform at the
position looked up in the map (defaulting to zero when absent), where the
joint transform is the axis-angle rotation for revolute and continuous
joints, the translation along the scaled axis for prismatic joints, and
the identity for fixed, floating and planar joints (compute_joint_transform). -/
theorem fk_world_transforms_spec {S V Q M : Type} (ops : GlamOps S V Q M)
    (qs : List (Uuid × S)) (m : Uuid → Nat) (st : Assembly S V M) (hwf : FKWF st m) :
    (∀ r lr, st.links.lookup r = some lr → st.parent.lookup r = none →
      (st.update_world_transforms_with_positions ops qs).links.lookup r
        = some { lr with world_transform := ops.idMat }) ∧
    (∀ y j p, st.parent.lookup y = some (j, p) →
      ∃ J ly lp,
        st.joints.lookup j = some J ∧
        (st.update_world_transforms_with_positions ops qs).links.lookup y = some ly ∧
        (st.update_world_transforms_with_positions ops qs).links.lookup p = some lp ∧
        ly.world_transform
          = ops.mul (ops.mul lp.world_transform (ops.pose_to_mat4 J.origin))
              (compute_joint_transform ops J.joint_type J.axis
                ((qs.lookup j).getD ops.zero))) := by
  have hroots : ∀ r ∈ st.get_root_links,
      st.parent.lookup r = none ∧ (st.links.lookup r).isSome = true := by
    intro r hr
    unfold Assembly.get_root_links at hr
    have hm := List.mem_filter.mp hr
    refine ⟨Option.isNone_iff_eq_none.mp hm.2, ?_⟩
    exact (lookup_isSome_iff_mem_keys st.links r).mpr hm.1
  obtain ⟨hshF, hemF, hI1, hI2⟩ := roots_fold ops qs m st hwf (st.links.length + 1)
    (Nat.le_refl _) st.get_root_links hroots st (shape_eq_refl st)
    (fun y l h => by rw [h]; rfl)
  have hdef : st.update_world_transforms_with_positions ops qs
      = st.get_root_links.foldl
          (fun s r => update_transform_recursive_with_positions ops qs
            (st.links.length + 1) s r ops.idMat) st := rfl
  refine ⟨?_, ?_⟩
  · intro r lr hlr hpn
    have hmem : r ∈ st.get_root_links := by
      unfold Assembly.get_root_links
      refine List.mem_filter.mpr ⟨?_, ?_⟩
      · refine (lookup_isSome_iff_mem_keys st.links r).mp ?_
        rw [hlr]
        rfl
      · rw [hpn]
        rfl
    obtain ⟨ly, hly, hrootT, _⟩ := hI2 r ⟨r, hmem, below_refl st r⟩
    have hw : ly.world_transform = ops.idMat := hrootT hpn
    have hform := hemF r ly hly
    rw [hlr] at hform
    rw [hdef, hly, ← hw]
    exact hform.symm
  · intro y j p hpy
    obtain ⟨hyl, hpl, hjl⟩ := hwf.2.2.2.2.1 (y, (j, p)) (mem_of_lookup hpy)
    rcases Option.isSome_iff_exists.mp hjl with ⟨J, hJ⟩
    have hbound : m y ≤ st.links.length := by
      rcases Option.isSome_iff_exists.mp hyl with ⟨ly0, hly0⟩
      exact hwf.2.2.2.2.2 (y, ly0) (mem_of_lookup hly0)
    obtain ⟨r, hrl, hrn, hbr⟩ := below_root_exists hwf.2.2.2.1
      (fun cp hcp => (hwf.2.2.2.2.1 cp hcp).2.1) st.links.length y hbound hyl
    have hmem : r ∈ st.get_root_links := by
      unfold Assembly.get_root_links
      refine List.mem_filter.mpr ⟨(lookup_isSome_iff_mem_keys st.links r).mp hrl, ?_⟩
      rw [hrn]
      rfl
    obtain ⟨ly, hly, _, hedge⟩ := hI2 y ⟨r, hmem, hbr⟩
    obtain ⟨lp, hlp, hrel⟩ := hedge j p hpy
    refine ⟨J, ly, lp, hJ, ?_, ?_, ?_⟩
    · rw [hdef]
      exact hly
    · rw [hdef]
      exact hlp
    · rw [hrel]
      exact node_transform_edge ops st.parent st.joints qs y j p J lp.world_transform hpy hJ

/-- Witness for C1 at the three-link chain with a revolute joint 100 at
position 1 and a prismatic joint 101 absent from the position map. -/
theorem fk_world_transforms_spec_witness :
    FKWF fkAsm (fun i => i) ∧
    (∃ J ly lp,
      fkAsm.joints.lookup 101 = some J ∧
      (fkAsm.update_world_transforms_with_positions freeOps [(100, 1)]).links.lookup 2
        = some ly ∧
      (fkAsm.update_world_transforms_with_positions freeOps [(100, 1)]).links.lookup 1
        = some lp ∧
      ly.world_transform
        = freeOps.mul (freeOps.mul lp.world_transform (freeOps.pose_to_mat4 J.origin))
            (compute_joint_transform freeOps J.joint_type J.axis
              (([(100, 1)].lookup 101).getD freeOps.zero))) :=
  ⟨by decide,
   (fk_world_transforms_spec freeOps [(100, 1)] (fun i => i) fkAsm (by decide)).2 2 101 1
     (by decide)⟩

/-- Witness for C5 at a reachable one-point sketch with one constraint. -/
theorem sketch_referential_integrity_witness :
    Sketch.Reachable c5Sketch ∧ Sketch.ConstraintsValid c5Sketch :=
  ⟨Sketch.Reachable.add_constraint _ ⟨50, [1]⟩
      (Sketch.Reachable.add_entity _ (.point 1 (0, 0))
        (Sketch.Reachable.new 0 (r"w") SketchPlane.xy)),
   (sketch_referential_integrity c5Sketch
      (Sketch.Reachable.add_constraint _ ⟨50, [1]⟩
        (Sketch.Reachable.add_entity _ (.point 1 (0, 0))
          (Sketch.Reachable.new 0 (r"w") SketchPlane.xy)))).1⟩

end RK
